import Mathlib

/-!
Shallow embedding of the RLCD 1-bit rendering core
(`src/simulator/rendering/`) and proofs of its specified properties.

Modelling conventions:
* A Python `bytearray` framebuffer is a `List ℕ`; each entry is one byte.
  `bytearray` item assignment keeps values in `[0, 256)`; theorems that
  need this carry the hypothesis `∀ b ∈ buf, b < 256`.
* Python `int` coordinates are `ℤ`.  Python float arithmetic is idealised
  as exact rational (`ℚ`) or real (`ℝ`) arithmetic.
* Python's builtin `round` is round-half-to-even (banker's rounding),
  embedded as `pyRound`; `int()` on a nonnegative float truncates, which
  coincides with the floor.
-/

namespace RLCD

/-- Python `round`: round half to even (banker's rounding), on exact
rationals. -/
def pyRound (q : ℚ) : ℤ :=
  let f := ⌊q⌋
  let r := q - f
  if r < 1/2 then f
  else if 1/2 < r then f + 1
  else if Even f then f else f + 1

/-- `WIDTH` from `framebuffer.py`. -/
def WIDTH : ℤ := 400

/-- `HEIGHT` from `framebuffer.py`. -/
def HEIGHT : ℤ := 300

/-- `BYTES_PER_ROW` from `framebuffer.py`. -/
def BYTES_PER_ROW : ℕ := 50

/-- The framebuffer byte store: `bytearray(50 * 300)` of zeros
(`Framebuffer.__init__`). -/
def initBuffer : List ℕ := List.replicate (BYTES_PER_ROW * 300) 0

/-- `Framebuffer.set_pixel` from `framebuffer.py` (lines 45-63).
Out-of-bounds coordinates are a no-op; otherwise the bit at
`byte = y*BYTES_PER_ROW + (x >> 3)`, `bit = 7 - (x & 7)` is set or
cleared.  Python's `b &= ~(1 << bit)` on a byte in `[0,256)` equals
`b &&& (255 ^^^ (1 <<< bit))`. -/
def setPixel (buf : List ℕ) (x y : ℤ) (color : Bool) : List ℕ :=
  if x < 0 ∨ WIDTH ≤ x ∨ y < 0 ∨ HEIGHT ≤ y then buf
  else
    let byteIndex := y.toNat * BYTES_PER_ROW + (x.toNat >>> 3)
    let bitIndex := 7 - (x.toNat % 8)
    if color then
      buf.set byteIndex (buf.getD byteIndex 0 ||| (1 <<< bitIndex))
    else
      buf.set byteIndex (buf.getD byteIndex 0 &&& (255 ^^^ (1 <<< bitIndex)))

/-- `Framebuffer.get_pixel` from `framebuffer.py` (lines 65-82).
Returns `false` out of bounds, else reads the addressed bit. -/
def getPixel (buf : List ℕ) (x y : ℤ) : Bool :=
  if x < 0 ∨ WIDTH ≤ x ∨ y < 0 ∨ HEIGHT ≤ y then false
  else
    let byteIndex := y.toNat * BYTES_PER_ROW + (x.toNat >>> 3)
    let bitIndex := 7 - (x.toNat % 8)
    buf.getD byteIndex 0 &&& (1 <<< bitIndex) ≠ 0

/-- Apply one masked byte write (`buffer[i] |= mask` / `buffer[i] &= ~mask`)
as done by `fill_span` on partial bytes. -/
def applyMask (buf : List ℕ) (i : ℕ) (color : Bool) (mask : ℕ) : List ℕ :=
  if color then buf.set i (buf.getD i 0 ||| mask)
  else buf.set i (buf.getD i 0 &&& (255 ^^^ mask))

/-- The same-byte mask loop of `fill_span` (lines 124-126):
`for bit in range(start_bit, end_bit+1): mask |= 1 << (7-bit)`. -/
def sameByteMask (startBit endBit : ℕ) : ℕ :=
  (List.range (endBit + 1 - startBit)).foldl
    (fun mask k => mask ||| (1 <<< (7 - (startBit + k)))) 0

/-- `Framebuffer.fill_span` from `framebuffer.py` (lines 84-170).
Clips `y`, clamps `x_start`/`x_end` into `[0, WIDTH]`, then writes the
span `[x_start, x_end)` of row `y` with byte-level masks: a single mask
when the span lies in one byte, else a partial start mask, a partial end
mask and full-byte writes in between. -/
def fillSpan (buf : List ℕ) (y xStart xEnd : ℤ) (color : Bool) : List ℕ :=
  if y < 0 ∨ HEIGHT ≤ y then buf
  else
    let xs := max xStart 0
    let xe := min xEnd WIDTH
    if xs ≥ xe then buf
    else
      let rowOffset := y.toNat * BYTES_PER_ROW
      let startByte := xs.toNat >>> 3
      let endByte := (xe - 1).toNat >>> 3
      let startBit := xs.toNat % 8
      let endBit := (xe - 1).toNat % 8
      if startByte = endByte then
        applyMask buf (rowOffset + startByte) color (sameByteMask startBit endBit)
      else
        let buf1 :=
          if startBit ≠ 0 then
            applyMask buf (rowOffset + startByte) color ((1 <<< (8 - startBit)) - 1)
          else buf
        let firstFullByte := if startBit ≠ 0 then startByte + 1 else startByte
        let buf2 :=
          if endBit ≠ 7 then
            applyMask buf1 (rowOffset + endByte) color ((255 <<< (7 - endBit)) &&& 255)
          else buf1
        let lastFullByte := if endBit ≠ 7 then endByte - 1 else endByte
        let fillValue := if color then 255 else 0
        if firstFullByte ≤ lastFullByte then
          (List.range (lastFullByte + 1 - firstFullByte)).foldl
            (fun b k => b.set (rowOffset + firstFullByte + k) fillValue) buf2
        else buf2

/-- The reference loop of the `fill_span` contract: call `set_pixel` for
every `x` in `[x_start, x_end)` (left to right). -/
def setPixelRange (buf : List ℕ) (y xStart xEnd : ℤ) (color : Bool) : List ℕ :=
  (List.range (xEnd - xStart).toNat).foldl
    (fun b (k : ℕ) => setPixel b (xStart + (k : ℤ)) y color) buf

lemma getD_set_self (l : List ℕ) (i v : ℕ) (h : i < l.length) :
    (l.set i v).getD i 0 = v := by
  simp [List.getD_eq_getElem?_getD, List.getElem?_set_self, h]

lemma getD_set_of_ne (l : List ℕ) (i j v : ℕ) (h : i ≠ j) :
    (l.set i v).getD j 0 = l.getD j 0 := by
  simp [List.getD_eq_getElem?_getD, List.getElem?_set_ne h]

lemma or_bit_and_bit_ne (b k : ℕ) : (b ||| (1 <<< k)) &&& (1 <<< k) ≠ 0 := by
  simp [Nat.shiftLeft_eq, Nat.and_two_pow, Nat.testBit_lor]

lemma clear_bit_and_bit_eq (b k : ℕ) (hk : k < 8) :
    (b &&& (255 ^^^ (1 <<< k))) &&& (1 <<< k) = 0 := by
  have h255 : (255 : ℕ).testBit k = true := by
    have h : (255 : ℕ) = 2 ^ 8 - 1 := by norm_num
    rw [h, Nat.testBit_two_pow_sub_one]
    simpa using hk
  simp [Nat.shiftLeft_eq, Nat.and_two_pow, Nat.testBit_and, Nat.testBit_xor, h255]

/-- **C2.** In-bounds `set_pixel` followed by `get_pixel` at the same
coordinate reads back the written color; out-of-bounds `set_pixel` leaves
the buffer unchanged and out-of-bounds `get_pixel` returns `false`; and on
an all-zero buffer, `set_pixel(0,0,true)` makes byte 0 equal `0x80` while
`set_pixel(7,0,true)` makes byte 0 equal `0x01` (MSB-first layout). -/
theorem claim_C2 :
    (∀ (buf : List ℕ) (x y : ℤ), buf.length = 15000 →
      0 ≤ x → x < 400 → 0 ≤ y → y < 300 →
      getPixel (setPixel buf x y true) x y = true ∧
      getPixel (setPixel buf x y false) x y = false) ∧
    (∀ (buf : List ℕ) (x y : ℤ) (color : Bool),
      (x < 0 ∨ 400 ≤ x ∨ y < 0 ∨ 300 ≤ y) →
      setPixel buf x y color = buf ∧ getPixel buf x y = false) ∧
    (setPixel initBuffer 0 0 true).getD 0 0 = 0x80 ∧
    (setPixel initBuffer 7 0 true).getD 0 0 = 0x01 := by
  refine ⟨?_, ?_, by decide, by decide⟩
  · intro buf x y hlen hx0 hx4 hy0 hy3
    have hn : ¬ (x < 0 ∨ WIDTH ≤ x ∨ y < 0 ∨ HEIGHT ≤ y) := by
      simp only [WIDTH, HEIGHT]; omega
    have hxlt : x.toNat < 400 := by omega
    have hylt : y.toNat < 300 := by omega
    have hsr : x.toNat >>> 3 = x.toNat / 8 := Nat.shiftRight_eq_div_pow _ _
    have hbi : y.toNat * BYTES_PER_ROW + (x.toNat >>> 3) < buf.length := by
      rw [hlen, hsr, BYTES_PER_ROW]; omega
    have hbit : 7 - (x.toNat % 8) < 8 := by omega
    constructor
    · show getPixel (setPixel buf x y true) x y = true
      rw [setPixel, if_neg hn, getPixel, if_neg hn]
      simp only [Bool.false_eq_true, if_true, if_false]
      rw [getD_set_self _ _ _ hbi]
      simpa using or_bit_and_bit_ne (buf.getD _ 0) _
    · show getPixel (setPixel buf x y false) x y = false
      rw [setPixel, if_neg hn, getPixel, if_neg hn]
      simp only [Bool.false_eq_true, if_true, if_false]
      rw [getD_set_self _ _ _ hbi]
      simpa using clear_bit_and_bit_eq (buf.getD _ 0) _ hbit
  · intro buf x y color h
    have hc : x < 0 ∨ WIDTH ≤ x ∨ y < 0 ∨ HEIGHT ≤ y := by
      simp only [WIDTH, HEIGHT]; omega
    exact ⟨by rw [setPixel, if_pos hc], by rw [getPixel, if_pos hc]⟩

/-- Witness for C2 at concrete inputs. -/
theorem claim_C2_witness :
    getPixel (setPixel initBuffer 13 7 true) 13 7 = true ∧
    getPixel initBuffer 400 0 = false := by
  refine ⟨(claim_C2.1 initBuffer 13 7
    (by rw [initBuffer, List.length_replicate]; rfl) (by decide) (by decide)
    (by decide) (by decide)).1, ?_⟩
  exact (claim_C2.2.1 initBuffer 400 0 true (by decide)).2

/-- `BAYER_4X4` from `patterns.py` (lines 25-30). -/
def BAYER_4X4 : List (List ℤ) :=
  [[0, 8, 2, 10], [12, 4, 14, 6], [3, 11, 1, 9], [15, 7, 13, 5]]

/-- `_PATTERN_THRESHOLDS.get(pattern, 0)` from `patterns.py` (lines 44-50,
68): thresholds 16, 12, 8, 4, 0 for levels `SOLID_BLACK = 0`, `DENSE = 1`,
`MEDIUM = 2`, `SPARSE = 3`, `SOLID_WHITE = 4`; default 0 for any other
key. -/
def patternThreshold (pattern : ℤ) : ℤ :=
  if pattern = 0 then 16
  else if pattern = 1 then 12
  else if pattern = 2 then 8
  else if pattern = 3 then 4
  else if pattern = 4 then 0
  else 0

/-- `pattern_test` from `patterns.py` (lines 53-80).  Python's `y & 3` on
a (possibly negative) int is `y mod 4` with a nonnegative result, embedded
as `Int.emod`. -/
def patternTest (pattern x y : ℤ) : Bool :=
  let threshold := patternThreshold pattern
  if threshold ≤ 0 then false
  else if 16 ≤ threshold then true
  else
    let bayerValue := (BAYER_4X4.getD (y % 4).toNat []).getD (x % 4).toNat 0
    bayerValue < threshold

/-- Number of cells `(x, y)` of the 4×4-aligned block with corner
`(4a, 4b)` for which `pattern_test` is true. -/
def blockCount (pattern a b : ℤ) : ℕ :=
  ((List.range 4).flatMap fun i =>
    (List.range 4).map fun j =>
      patternTest pattern (4 * a + (i : ℤ)) (4 * b + (j : ℤ))).count true

lemma patternTest_add_four_mul (p a b x y : ℤ) :
    patternTest p (4 * a + x) (4 * b + y) = patternTest p x y := by
  unfold patternTest
  have hx : (4 * a + x) % 4 = x % 4 := by omega
  have hy : (4 * b + y) % 4 = y % 4 := by omega
  rw [hx, hy]

lemma blockCount_shift (p a b : ℤ) : blockCount p a b = blockCount p 0 0 := by
  unfold blockCount
  norm_num [List.range_succ, patternTest_add_four_mul]

/-- **C3.** Over any 4×4-aligned block the number of cells passing
`pattern_test` is 16 (SOLID_BLACK), 12 (DENSE), 8 (MEDIUM), 4 (SPARSE),
0 (SOLID_WHITE); and every pattern level tiles with period 4 in both
coordinates. -/
theorem claim_C3 :
    (∀ a b : ℤ,
      blockCount 0 a b = 16 ∧ blockCount 1 a b = 12 ∧ blockCount 2 a b = 8 ∧
      blockCount 3 a b = 4 ∧ blockCount 4 a b = 0) ∧
    (∀ level x y : ℤ,
      patternTest level (x + 4) y = patternTest level x y ∧
      patternTest level x (y + 4) = patternTest level x y) := by
  constructor
  · intro a b
    refine ⟨?_, ?_, ?_, ?_, ?_⟩ <;> rw [blockCount_shift] <;> decide
  · intro level x y
    constructor
    · unfold patternTest
      have hx : (x + 4) % 4 = x % 4 := by omega
      rw [hx]
    · unfold patternTest
      have hy : (y + 4) % 4 = y % 4 := by omega
      rw [hy]

/-- Python `min()` over a nonempty int list (the `< 3` guard in the
polygon fillers ensures nonemptiness; `0` is a dummy for `[]`). -/
def pyMin : List ℤ → ℤ
  | [] => 0
  | h :: t => t.foldl min h

/-- Python `max()` over a nonempty int list. -/
def pyMax : List ℤ → ℤ
  | [] => 0
  | h :: t => t.foldl max h

/-- Insertion into a sorted list, for `list.sort()` on ints. -/
def insertSorted (x : ℤ) : List ℤ → List ℤ
  | [] => [x]
  | y :: ys => if x ≤ y then x :: y :: ys else y :: insertSorted x ys

/-- `intersections.sort()`: sorting a list of ints ascending (insertion
sort; any correct sort of ints produces this result). -/
def sortInts (l : List ℤ) : List ℤ := l.foldr insertSorted []

/-- One edge's contribution to a scanline (lines 125-143 of
`patterns.py`): skip horizontal edges, normalize so `y0 < y1`, use the
half-open test `y0 <= y < y1`, intersection by Python floor division
(`Int.fdiv`). -/
def edgeIntersection (y : ℤ) (e : (ℤ × ℤ) × (ℤ × ℤ)) : Option ℤ :=
  let x0 := e.1.1
  let y0 := e.1.2
  let x1 := e.2.1
  let y1 := e.2.2
  if y0 = y1 then none
  else
    let a := if y0 > y1 then (x1, y1, x0, y0) else (x0, y0, x1, y1)
    let x0 := a.1
    let y0 := a.2.1
    let x1 := a.2.2.1
    let y1 := a.2.2.2
    if y0 ≤ y ∧ y < y1 then
      some (x0 + Int.fdiv ((y - y0) * (x1 - x0)) (y1 - y0))
    else none

/-- The inner pixel loop of `fill_polygon_pattern` (lines 153-156):
`for x in range(x_start, x_end + 1): if pattern_test: set_pixel`. -/
def fillSpanPixels (buf : List ℕ) (y : ℤ) (pattern : ℤ) (xs xe : ℤ) :
    List ℕ :=
  (List.range (xe + 1 - xs).toNat).foldl
    (fun b (k : ℕ) =>
      if patternTest pattern (xs + (k : ℤ)) y then
        setPixel b (xs + (k : ℤ)) y true
      else b)
    buf

/-- `for i in range(0, len(intersections) - 1, 2)` pairing of sorted
intersections (even-odd rule): consecutive disjoint pairs, odd leftover
dropped. -/
def spanPairs : List ℤ → List (ℤ × ℤ)
  | a :: b :: rest => (a, b) :: spanPairs rest
  | _ => []

/-- `fill_polygon_pattern` from `patterns.py` (lines 83-157). -/
def fillPolygonPattern (buf : List ℕ) (points : List (ℤ × ℤ))
    (pattern : ℤ) : List ℕ :=
  if points.length < 3 then buf
  else if pattern = 4 then buf
  else
    let minY := max 0 (pyMin (points.map Prod.snd))
    let maxY := min (HEIGHT - 1) (pyMax (points.map Prod.snd))
    let edges := points.zip (points.rotate 1)
    (List.range (maxY + 1 - minY).toNat).foldl
      (fun b (k : ℕ) =>
        let y := minY + (k : ℤ)
        let inters := sortInts (edges.filterMap (edgeIntersection y))
        (spanPairs inters).foldl
          (fun b2 s => fillSpanPixels b2 y pattern s.1 s.2) b)
      buf

lemma getPixel_initBuffer (x y : ℤ) : getPixel initBuffer x y = false := by
  unfold getPixel
  split
  · rfl
  · simp [initBuffer, List.getD_eq_getElem?_getD, List.getElem?_replicate]
    split <;> simp

lemma foldl_preserve_mem {α : Type} (P : List ℕ → Prop)
    (f : List ℕ → α → List ℕ) :
    ∀ (l : List α) (b : List ℕ),
      (∀ b a, a ∈ l → P b → P (f b a)) → P b → P (l.foldl f b) := by
  intro l
  induction l with
  | nil => intro b _ hb; exact hb
  | cons a t ih =>
    intro b h hb
    exact ih _ (fun b a ha hP => h b a (List.mem_cons_of_mem _ ha) hP)
      (h b a (List.mem_cons_self _ _) hb)

lemma or_pow_and_pow_ne (v k j : ℕ) (h : k ≠ j) :
    (v ||| (1 <<< k)) &&& (1 <<< j) = v &&& (1 <<< j) := by
  apply Nat.eq_of_testBit_eq
  intro i
  simp only [Nat.testBit_and, Nat.testBit_lor, Nat.shiftLeft_eq, Nat.one_mul,
    Nat.testBit_two_pow]
  by_cases hji : j = i
  · subst hji
    simp [h]
  · simp [hji]


lemma getPixel_setPixel_true (b : List ℕ) (xi yi x y : ℤ)
    (hlen : b.length = 15000) :
    getPixel (setPixel b xi yi true) x y =
      (getPixel b x y ||
        decide (x = xi ∧ y = yi ∧ 0 ≤ x ∧ x < 400 ∧ 0 ≤ y ∧ y < 300)) := by
  by_cases hw : xi < 0 ∨ WIDTH ≤ xi ∨ yi < 0 ∨ HEIGHT ≤ yi
  · rw [setPixel, if_pos hw]
    have hextra : ¬ (x = xi ∧ y = yi ∧ 0 ≤ x ∧ x < 400 ∧ 0 ≤ y ∧ y < 300) := by
      simp only [WIDTH, HEIGHT] at hw; omega
    rw [decide_eq_false hextra, Bool.or_false]
  · by_cases hr : x < 0 ∨ WIDTH ≤ x ∨ y < 0 ∨ HEIGHT ≤ y
    · have hextra : ¬ (x = xi ∧ y = yi ∧ 0 ≤ x ∧ x < 400 ∧ 0 ≤ y ∧ y < 300) := by
        simp only [WIDTH, HEIGHT] at hr; omega
      rw [getPixel, if_pos hr, getPixel, if_pos hr, decide_eq_false hextra,
        Bool.or_false]
    · rw [setPixel, if_neg hw]
      simp only [if_true]
      rw [getPixel, if_neg hr, getPixel, if_neg hr]
      simp only []
      have hsrW : xi.toNat >>> 3 = xi.toNat / 8 := Nat.shiftRight_eq_div_pow _ _
      have hsrR : x.toNat >>> 3 = x.toNat / 8 := Nat.shiftRight_eq_div_pow _ _
      simp only [WIDTH, HEIGHT] at hw hr
      have hbiR : y.toNat * BYTES_PER_ROW + (x.toNat >>> 3) < b.length := by
        rw [hlen, hsrR, BYTES_PER_ROW]; omega
      by_cases hxy : x = xi ∧ y = yi
      · obtain ⟨h1, h2⟩ := hxy
        subst h1; subst h2
        rw [getD_set_self _ _ _ hbiR]
        have hextra : (x = x ∧ y = y ∧ 0 ≤ x ∧ x < 400 ∧ 0 ≤ y ∧ y < 300) := by
          omega
        rw [decide_eq_true hextra, Bool.or_true]
        exact decide_eq_true (or_bit_and_bit_ne _ _)
      · have hextra : ¬ (x = xi ∧ y = yi ∧ 0 ≤ x ∧ x < 400 ∧ 0 ≤ y ∧ y < 300) := by
          tauto
        rw [decide_eq_false hextra, Bool.or_false]
        by_cases hidx : yi.toNat * BYTES_PER_ROW + (xi.toNat >>> 3) =
            y.toNat * BYTES_PER_ROW + (x.toNat >>> 3)
        · have hyy : y = yi := by
            rw [hsrW, hsrR, BYTES_PER_ROW] at hidx
            have e8 : (2 : ℕ) ^ 3 = 8 := by norm_num
            omega
          have hxne : x ≠ xi := fun hc => hxy ⟨hc, hyy⟩
          have hbitne : 7 - (xi.toNat % 8) ≠ 7 - (x.toNat % 8) := by
            rw [hsrW, hsrR, BYTES_PER_ROW] at hidx
            omega
          rw [hidx, getD_set_self _ _ _ hbiR,
            or_pow_and_pow_ne _ _ _ hbitne]
        · rw [getD_set_of_ne _ _ _ _ hidx]


lemma length_setPixel (b : List ℕ) (x y : ℤ) (c : Bool) :
    (setPixel b x y c).length = b.length := by
  unfold setPixel
  split
  · rfl
  · split <;> simp [List.length_set]

lemma length_fillFold (n : ℕ) (b : List ℕ) (yr pat xs : ℤ) :
    ((List.range n).foldl
      (fun bb (k : ℕ) =>
        if patternTest pat (xs + (k : ℤ)) yr then
          setPixel bb (xs + (k : ℤ)) yr true
        else bb) b).length = b.length := by
  refine foldl_preserve_mem (fun bb => bb.length = b.length) _ _ _ ?_ rfl
  intro bb a _ h
  split
  · rw [length_setPixel, h]
  · exact h

lemma getPixel_fillFold (n : ℕ) (b : List ℕ) (yr pat xs x y : ℤ)
    (hlen : b.length = 15000) :
    getPixel ((List.range n).foldl
      (fun bb (k : ℕ) =>
        if patternTest pat (xs + (k : ℤ)) yr then
          setPixel bb (xs + (k : ℤ)) yr true
        else bb) b) x y =
      (getPixel b x y ||
        (decide (y = yr ∧ xs ≤ x ∧ x < xs + n ∧ 0 ≤ x ∧ x < 400 ∧
           0 ≤ y ∧ y < 300) &&
         patternTest pat x y)) := by
  induction n generalizing b with
  | zero =>
    have hf : ¬ (y = yr ∧ xs ≤ x ∧ x < xs + ((0 : ℕ) : ℤ) ∧ 0 ≤ x ∧ x < 400 ∧
        0 ≤ y ∧ y < 300) := by
      omega
    rw [List.range_zero, List.foldl_nil, decide_eq_false hf, Bool.false_and,
      Bool.or_false]
  | succ n ih =>
    rw [List.range_succ, List.foldl_append, List.foldl_cons, List.foldl_nil]
    have hlen2 : ((List.range n).foldl
        (fun bb (k : ℕ) =>
          if patternTest pat (xs + (k : ℤ)) yr then
            setPixel bb (xs + (k : ℤ)) yr true
          else bb) b).length = 15000 := by
      rw [length_fillFold, hlen]
    by_cases hp : patternTest pat (xs + n) yr = true
    · rw [if_pos hp, getPixel_setPixel_true _ _ _ _ _ hlen2, ih b hlen,
        Bool.or_assoc]
      congr 1
      rw [Bool.eq_iff_iff]
      simp only [Bool.or_eq_true, Bool.and_eq_true, decide_eq_true_eq]
      constructor
      · rintro (⟨hW, hpat⟩ | hpt)
        · refine ⟨?_, hpat⟩
          push_cast at hW ⊢
          omega
        · obtain ⟨he, hyr, hb⟩ := hpt
          subst he; subst hyr
          exact ⟨by push_cast; omega, hp⟩
      · rintro ⟨hW, hpat⟩
        by_cases hlast : x = xs + (n : ℤ)
        · right
          refine ⟨by omega, ?_, ?_⟩
          · exact hW.1
          · push_cast at hW; omega
        · left
          refine ⟨?_, hpat⟩
          push_cast at hW ⊢
          omega
    · rw [if_neg hp, ih b hlen]
      congr 1
      rw [Bool.eq_iff_iff]
      simp only [Bool.and_eq_true, decide_eq_true_eq]
      constructor
      · rintro ⟨hW, hpat⟩
        refine ⟨?_, hpat⟩
        push_cast at hW ⊢
        omega
      · rintro ⟨hW, hpat⟩
        by_cases hlast : x = xs + (n : ℤ)
        · exfalso
          apply hp
          rw [← hlast, ← hW.1]
          exact hpat
        · refine ⟨?_, hpat⟩
          push_cast at hW ⊢
          omega

lemma getPixel_fillSpanPixels (b : List ℕ) (yr pat xs xe x y : ℤ)
    (hlen : b.length = 15000) :
    getPixel (fillSpanPixels b yr pat xs xe) x y =
      (getPixel b x y ||
        (decide (y = yr ∧ xs ≤ x ∧ x ≤ xe ∧ 0 ≤ x ∧ x < 400 ∧
           0 ≤ y ∧ y < 300) &&
         patternTest pat x y)) := by
  unfold fillSpanPixels
  rw [getPixel_fillFold _ _ _ _ _ _ _ hlen]
  have hiff : (y = yr ∧ xs ≤ x ∧ x < xs + (((xe + 1 - xs).toNat : ℕ) : ℤ) ∧
      0 ≤ x ∧ x < 400 ∧ 0 ≤ y ∧ y < 300) ↔
      (y = yr ∧ xs ≤ x ∧ x ≤ xe ∧ 0 ≤ x ∧ x < 400 ∧ 0 ≤ y ∧ y < 300) := by
    omega
  rw [decide_eq_decide.mpr hiff]


lemma length_fillSpanPixels (b : List ℕ) (yr pat xs xe : ℤ) :
    (fillSpanPixels b yr pat xs xe).length = b.length :=
  length_fillFold _ _ _ _ _

lemma length_initBuffer : initBuffer.length = 15000 := by
  rw [initBuffer, List.length_replicate]; rfl

/-- **C4.** From a cleared 400×300 buffer,
`fill_polygon_pattern(fb, [(0,0),(8,0),(8,8),(0,8)], MEDIUM)` sets exactly
the pixels of rows `y = 0..7` within the filled spans `x = 0..8` for which
`pattern_test(MEDIUM, x, y)` is true; in particular no pixel of row
`y = 8` is set (the half-open scanline test excludes the maximum-y row). -/
theorem claim_C4 :
    ∀ x y : ℤ,
      getPixel (fillPolygonPattern initBuffer [(0, 0), (8, 0), (8, 8), (0, 8)] 2)
          x y =
        (decide (0 ≤ y ∧ y < 8 ∧ 0 ≤ x ∧ x ≤ 8) && patternTest 2 x y) := by
  intro x y
  have hred : fillPolygonPattern initBuffer [(0, 0), (8, 0), (8, 8), (0, 8)] 2 =
      fillSpanPixels (fillSpanPixels (fillSpanPixels (fillSpanPixels
        (fillSpanPixels (fillSpanPixels (fillSpanPixels (fillSpanPixels
          initBuffer 0 2 0 8) 1 2 0 8) 2 2 0 8) 3 2 0 8) 4 2 0 8) 5 2 0 8)
        6 2 0 8) 7 2 0 8 := by
    rfl
  rw [hred]
  have l0 : initBuffer.length = 15000 := length_initBuffer
  have l1 := (length_fillSpanPixels initBuffer 0 2 0 8).trans l0
  have l2 := (length_fillSpanPixels _ 1 2 0 8).trans l1
  have l3 := (length_fillSpanPixels _ 2 2 0 8).trans l2
  have l4 := (length_fillSpanPixels _ 3 2 0 8).trans l3
  have l5 := (length_fillSpanPixels _ 4 2 0 8).trans l4
  have l6 := (length_fillSpanPixels _ 5 2 0 8).trans l5
  have l7 := (length_fillSpanPixels _ 6 2 0 8).trans l6
  rw [getPixel_fillSpanPixels _ _ _ _ _ _ _ l7,
    getPixel_fillSpanPixels _ _ _ _ _ _ _ l6,
    getPixel_fillSpanPixels _ _ _ _ _ _ _ l5,
    getPixel_fillSpanPixels _ _ _ _ _ _ _ l4,
    getPixel_fillSpanPixels _ _ _ _ _ _ _ l3,
    getPixel_fillSpanPixels _ _ _ _ _ _ _ l2,
    getPixel_fillSpanPixels _ _ _ _ _ _ _ l1,
    getPixel_fillSpanPixels _ _ _ _ _ _ _ l0,
    getPixel_initBuffer, Bool.false_or]
  rw [Bool.eq_iff_iff]
  simp only [Bool.or_eq_true, Bool.and_eq_true, decide_eq_true_eq]
  constructor
  · rintro (((((((⟨hW, hp⟩ | ⟨hW, hp⟩) | ⟨hW, hp⟩) | ⟨hW, hp⟩) | ⟨hW, hp⟩) |
      ⟨hW, hp⟩) | ⟨hW, hp⟩) | ⟨hW, hp⟩) <;>
      exact ⟨by omega, hp⟩
  · rintro ⟨hW, hp⟩
    have hy0 : 0 ≤ y := hW.1
    have hy8 : y < 8 := hW.2.1
    have hx0 : 0 ≤ x := hW.2.2.1
    have hx8 : x ≤ 8 := hW.2.2.2
    interval_cases y
    · exact Or.inl (Or.inl (Or.inl (Or.inl (Or.inl (Or.inl (Or.inl
        ⟨⟨rfl, hx0, hx8, hx0, by omega, by omega, by omega⟩, hp⟩))))))
    · exact Or.inl (Or.inl (Or.inl (Or.inl (Or.inl (Or.inl (Or.inr
        ⟨⟨rfl, hx0, hx8, hx0, by omega, by omega, by omega⟩, hp⟩))))))
    · exact Or.inl (Or.inl (Or.inl (Or.inl (Or.inl (Or.inr
        ⟨⟨rfl, hx0, hx8, hx0, by omega, by omega, by omega⟩, hp⟩)))))
    · exact Or.inl (Or.inl (Or.inl (Or.inl (Or.inr
        ⟨⟨rfl, hx0, hx8, hx0, by omega, by omega, by omega⟩, hp⟩))))
    · exact Or.inl (Or.inl (Or.inl (Or.inr
        ⟨⟨rfl, hx0, hx8, hx0, by omega, by omega, by omega⟩, hp⟩)))
    · exact Or.inl (Or.inl (Or.inr
        ⟨⟨rfl, hx0, hx8, hx0, by omega, by omega, by omega⟩, hp⟩))
    · exact Or.inl (Or.inr
        ⟨⟨rfl, hx0, hx8, hx0, by omega, by omega, by omega⟩, hp⟩)
    · exact Or.inr
        ⟨⟨rfl, hx0, hx8, hx0, by omega, by omega, by omega⟩, hp⟩

lemma or_and_ne_zero (a m c : ℕ) (h : a &&& c ≠ 0) : (a ||| m) &&& c ≠ 0 := by
  intro hc
  apply h
  apply Nat.eq_of_testBit_eq
  intro i
  have hi := congrArg (fun n => n.testBit i) hc
  simp only [Nat.testBit_and, Nat.testBit_lor, Nat.zero_testBit] at hi ⊢
  cases ha : a.testBit i <;> cases hcb : c.testBit i <;> simp_all

lemma getPixel_mono_setPixel (buf : List ℕ) (a b x y : ℤ)
    (h : getPixel buf x y = true) :
    getPixel (setPixel buf a b true) x y = true := by
  rw [setPixel]
  split
  · exact h
  · simp only [if_true]
    rw [getPixel] at h ⊢
    by_cases hr : x < 0 ∨ WIDTH ≤ x ∨ y < 0 ∨ HEIGHT ≤ y
    · rw [if_pos hr] at h
      exact absurd h (by simp)
    · rw [if_neg hr] at h ⊢
      simp only [decide_eq_true_eq] at h ⊢
      by_cases hidx : b.toNat * BYTES_PER_ROW + (a.toNat >>> 3) =
          y.toNat * BYTES_PER_ROW + (x.toNat >>> 3)
      · rw [hidx]
        by_cases hlt : y.toNat * BYTES_PER_ROW + (x.toNat >>> 3) < buf.length
        · rw [getD_set_self _ _ _ hlt]
          exact or_and_ne_zero _ _ _ h
        · rw [List.set_eq_of_length_le (by omega)]
          exact h
      · rw [getD_set_of_ne _ _ _ _ hidx]
        exact h

lemma getPixel_mono_fillSpanPixels (buf : List ℕ) (yr pat xs xe x y : ℤ)
    (h : getPixel buf x y = true) :
    getPixel (fillSpanPixels buf yr pat xs xe) x y = true := by
  refine foldl_preserve_mem (fun b => getPixel b x y = true) _ _ _ ?_ h
  intro b k _ hb
  split
  · exact getPixel_mono_setPixel _ _ _ _ _ hb
  · exact hb

/-- **C10.** `fill_polygon_pattern` can only add ink: every pixel that is
black before the call is still black after it, for every starting buffer,
vertex list and pattern level. -/
theorem claim_C10 :
    ∀ (buf : List ℕ) (points : List (ℤ × ℤ)) (pattern : ℤ) (x y : ℤ),
      getPixel buf x y = true →
      getPixel (fillPolygonPattern buf points pattern) x y = true := by
  intro buf points pattern x y h
  rw [fillPolygonPattern]
  split
  · exact h
  · split
    · exact h
    · refine foldl_preserve_mem (fun b => getPixel b x y = true) _ _ _ ?_ h
      intro b k _ hb
      refine foldl_preserve_mem (fun b2 => getPixel b2 x y = true) _ _ _ ?_ hb
      intro b2 s _ hb2
      exact getPixel_mono_fillSpanPixels _ _ _ _ _ _ _ hb2

/-- Witness for C10 at a concrete buffer with a black pixel. -/
theorem claim_C10_witness :
    getPixel (fillPolygonPattern [128] [(0, 0), (4, 0), (0, 4)] 1) 0 0 =
      true :=
  claim_C10 [128] [(0, 0), (4, 0), (0, 4)] 1 0 0 (by decide)

/-- `lerp` from `animation.py` (line 33): `a + t * (b - a)`. -/
def lerp (a b t : ℚ) : ℚ := a + t * (b - a)

/-- `transition_points` from `animation.py` (lines 165-201): raises
`ValueError` on length mismatch; else optionally applies `easing` to `t`,
then per-coordinate `lerp` with each result passed through
`float(int(round(x)))` (Python banker's rounding). -/
def transition_points (a b : List (ℚ × ℚ)) (t : ℚ)
    (easing : Option (ℚ → ℚ)) : Except String (List (ℚ × ℚ)) :=
  if a.length ≠ b.length then
    Except.error "Point lists must have same length"
  else
    let t2 := match easing with
      | some f => f t
      | none => t
    Except.ok ((a.zip b).map fun pq =>
      ((pyRound (lerp pq.1.1 pq.2.1 t2) : ℚ),
       (pyRound (lerp pq.1.2 pq.2.2 t2) : ℚ)))

lemma pyRound_intCast (m : ℤ) : pyRound (m : ℚ) = m := by
  unfold pyRound
  norm_num

lemma lerp_self_zero (a b : ℚ) : lerp a b 0 = a := by
  unfold lerp; ring

lemma lerp_self_one (a b : ℚ) : lerp a b 1 = b := by
  unfold lerp; ring

/-- C5 counterexample: with the non-integer point `(1/2, 0)` on both
sides, `transition_points(a, b, 0)` does not return `a` exactly — the
result is rounded to `(0, 0)`. -/
theorem claim_C5_counterexample :
    transition_points [((1 : ℚ)/2, 0)] [((1 : ℚ)/2, 0)] 0 none ≠
      Except.ok [((1 : ℚ)/2, 0)] := by
  have hpr : pyRound ((1 : ℚ)/2) = 0 := by
    unfold pyRound
    rw [show ⌊(1 : ℚ)/2⌋ = 0 by norm_num]
    norm_num
  have hpr0 : pyRound (0 : ℚ) = 0 := by
    simpa using pyRound_intCast 0
  unfold transition_points
  simp only [List.length_singleton, ne_eq, if_neg, List.zip_cons_cons,
    List.zip_nil_right, List.map_cons, List.map_nil]
  norm_num [lerp, hpr, hpr0, Prod.ext_iff]

/-- **C5 (amended).** `transition_points` returns the length-mismatch
error exactly when the lists have different lengths; and for equal-length
lists whose coordinates are all integers (no easing), `t = 0` returns `a`
exactly and `t = 1` returns `b` exactly. -/
theorem claim_C5 :
    (∀ (a b : List (ℚ × ℚ)) (t : ℚ) (easing : Option (ℚ → ℚ)),
      (∃ e, transition_points a b t easing = Except.error e) ↔
        a.length ≠ b.length) ∧
    (∀ a b : List (ℚ × ℚ), a.length = b.length →
      (∀ p ∈ a, ∃ m n : ℤ, p = ((m : ℚ), (n : ℚ))) →
      (∀ p ∈ b, ∃ m n : ℤ, p = ((m : ℚ), (n : ℚ))) →
      transition_points a b 0 none = Except.ok a ∧
      transition_points a b 1 none = Except.ok b) := by
  constructor
  · intro a b t easing
    unfold transition_points
    by_cases h : a.length = b.length
    · simp [h]
    · simp [h]
  · intro a b hlen ha hb
    constructor
    · unfold transition_points
      rw [if_neg (by simp [hlen])]
      simp only [Except.ok.injEq]
      induction a generalizing b with
      | nil =>
        cases b with
        | nil => simp
        | cons q bt => simp at hlen
      | cons p at2 ih =>
        cases b with
        | nil => simp at hlen
        | cons q bt =>
          simp only [List.zip_cons_cons, List.map_cons, List.cons.injEq]
          constructor
          · obtain ⟨m, n, hp⟩ := ha p (List.mem_cons_self _ _)
            rw [hp]
            simp [lerp_self_zero, pyRound_intCast]
          · exact ih bt (by simpa using hlen)
              (fun p hp => ha p (List.mem_cons_of_mem _ hp))
              (fun p hp => hb p (List.mem_cons_of_mem _ hp))
    · unfold transition_points
      rw [if_neg (by simp [hlen])]
      simp only [Except.ok.injEq]
      induction a generalizing b with
      | nil =>
        cases b with
        | nil => simp
        | cons q bt => simp at hlen
      | cons p at2 ih =>
        cases b with
        | nil => simp at hlen
        | cons q bt =>
          simp only [List.zip_cons_cons, List.map_cons, List.cons.injEq]
          constructor
          · obtain ⟨m, n, hq⟩ := hb q (List.mem_cons_self _ _)
            rw [hq]
            simp [lerp_self_one, pyRound_intCast]
          · exact ih bt (by simpa using hlen)
              (fun p hp => ha p (List.mem_cons_of_mem _ hp))
              (fun p hp => hb p (List.mem_cons_of_mem _ hp))

/-- Witness for C5 at concrete integer-coordinate lists. -/
theorem claim_C5_witness :
    transition_points [((1 : ℚ), 2)] [((3 : ℚ), 4)] 0 none =
      Except.ok [((1 : ℚ), 2)] ∧
    transition_points [((1 : ℚ), 2)] [((3 : ℚ), 4)] 1 none =
      Except.ok [((3 : ℚ), 4)] :=
  claim_C5.2 [((1 : ℚ), 2)] [((3 : ℚ), 4)] rfl
    (by
      intro p hp
      simp only [List.mem_singleton] at hp
      exact ⟨1, 2, by rw [hp]; norm_num⟩)
    (by
      intro p hp
      simp only [List.mem_singleton] at hp
      exact ⟨3, 4, by rw [hp]; norm_num⟩)

/-- `breathing_scale` from `animation.py` (lines 68-89): guarded
`period = 0` edge case returning `min_scale`; otherwise a sine oscillator
mapped to `[min_scale, max_scale]`.  Python float arithmetic is idealised
as exact arithmetic over `ℝ`. -/
noncomputable def breathing_scale (t min_scale max_scale period : ℚ) : ℝ :=
  if period = 0 then (min_scale : ℝ)
  else
    ((min_scale : ℝ) +
      ((Real.sin (((t / period : ℚ) : ℝ) * 2 * Real.pi) + 1) / 2) *
        ((max_scale : ℝ) - (min_scale : ℝ)))

/-- `breathing_offset` from `animation.py` (lines 92-106): computes
`phase = (t / period) * 2 * pi` with no guard, so `period = 0` is a
Python `ZeroDivisionError`, embedded as `Except.error`. -/
noncomputable def breathing_offset (t amplitude period : ℚ) :
    Except String ℝ :=
  if period = 0 then Except.error "ZeroDivisionError"
  else
    Except.ok ((amplitude : ℝ) *
      Real.sin (((t / period : ℚ) : ℝ) * 2 * Real.pi))

/-- C8 counterexample: `breathing_offset` with `period = 0` fails with the
division-by-zero error instead of returning its minimum value `-2`. -/
theorem claim_C8_counterexample :
    breathing_offset 1 2 0 = Except.error "ZeroDivisionError" ∧
    breathing_offset 1 2 0 ≠ Except.ok (-2 : ℝ) := by
  unfold breathing_offset
  simp

/-- **C8 (amended).** `breathing_scale` with `period = 0` is guarded and
returns `min_scale` for every input; `breathing_offset` has no such guard
and fails with the division-by-zero error for every input with
`period = 0`. -/
theorem claim_C8 :
    (∀ t mn mx : ℚ, breathing_scale t mn mx 0 = (mn : ℝ)) ∧
    (∀ t amp : ℚ,
      breathing_offset t amp 0 = Except.error "ZeroDivisionError") := by
  constructor
  · intro t mn mx
    unfold breathing_scale
    simp
  · intro t amp
    unfold breathing_offset
    simp

/-- The comparison `_bezier_flatness(p0,c0,c1,p1) <= tolerance` from
`bezier.py` (lines 217-262 and 280).  The source compares square roots and
quotients; over exact rationals the same comparison is expressed in
squared form: for the degenerate chord (`length_sq < 1e-10`) the flatness
is `max(dist(c0,p0), dist(c1,p0))` and `flatness <= tol` holds iff
`0 <= tol` and both squared distances are at most `tol^2`; otherwise the
flatness is `max(|cross0|, |cross1|) / length` and the comparison holds
iff `0 <= tol` and both squared cross products are at most
`tol^2 * length_sq`. -/
def flatnessLE (p0 c0 c1 p1 : ℚ × ℚ) (tol : ℚ) : Bool :=
  if (p1.1 - p0.1) * (p1.1 - p0.1) + (p1.2 - p0.2) * (p1.2 - p0.2) <
      1 / 10000000000 then
    decide (0 ≤ tol ∧
      (c0.1 - p0.1) ^ 2 + (c0.2 - p0.2) ^ 2 ≤ tol ^ 2 ∧
      (c1.1 - p0.1) ^ 2 + (c1.2 - p0.2) ^ 2 ≤ tol ^ 2)
  else
    decide (0 ≤ tol ∧
      ((c0.1 - p0.1) * (p1.2 - p0.2) - (c0.2 - p0.2) * (p1.1 - p0.1)) ^ 2 ≤
        tol ^ 2 *
          ((p1.1 - p0.1) * (p1.1 - p0.1) + (p1.2 - p0.2) * (p1.2 - p0.2)) ∧
      ((c1.1 - p0.1) * (p1.2 - p0.2) - (c1.2 - p0.2) * (p1.1 - p0.1)) ^ 2 ≤
        tol ^ 2 *
          ((p1.1 - p0.1) * (p1.1 - p0.1) + (p1.2 - p0.2) * (p1.2 - p0.2)))

/-- `(int(round(p[0])), int(round(p[1])))` as appended by the subdivision
(bezier.py lines 282 and 330). -/
def roundPoint (p : ℚ × ℚ) : ℤ × ℤ := (pyRound p.1, pyRound p.2)

/-- `_subdivide_bezier_recursive` from `bezier.py` (lines 265-301), with
explicit recursion fuel.  With zero fuel only the endpoint is appended,
which coincides with the flat case (for zero fuel the flatness test is
irrelevant: both branches would append the endpoint); the source
recursion terminates because flatness shrinks under subdivision, so any
sufficiently large fuel computes its value. -/
def subdivideRec : ℕ → (ℚ × ℚ) → (ℚ × ℚ) → (ℚ × ℚ) → (ℚ × ℚ) → ℚ →
    List (ℤ × ℤ)
  | 0, _, _, _, p1, _ => [roundPoint p1]
  | f + 1, p0, c0, c1, p1, tol =>
    if flatnessLE p0 c0 c1 p1 tol then [roundPoint p1]
    else
      let q0 := ((p0.1 + c0.1) / 2, (p0.2 + c0.2) / 2)
      let q1 := ((c0.1 + c1.1) / 2, (c0.2 + c1.2) / 2)
      let q2 := ((c1.1 + p1.1) / 2, (c1.2 + p1.2) / 2)
      let r0 := ((q0.1 + q1.1) / 2, (q0.2 + q1.2) / 2)
      let r1 := ((q1.1 + q2.1) / 2, (q1.2 + q2.2) / 2)
      let mid := ((r0.1 + r1.1) / 2, (r0.2 + r1.2) / 2)
      subdivideRec f p0 q0 r0 mid tol ++ subdivideRec f mid r1 q2 p1 tol

/-- `subdivide_bezier` from `bezier.py` (lines 304-332): seed the list
with the rounded start point, then recurse. -/
def subdivide_bezier (fuel : ℕ) (p0 c0 c1 p1 : ℚ × ℚ) (tol : ℚ) :
    List (ℤ × ℤ) :=
  roundPoint p0 :: subdivideRec fuel p0 c0 c1 p1 tol

/-- 2D cross product of difference vectors. -/
def cross2 (u v : ℚ × ℚ) : ℚ := u.1 * v.2 - u.2 * v.1

/-- The four control points lie on one common line: the three difference
vectors from `p0` are pairwise parallel. -/
def Collinear4 (p0 c0 c1 p1 : ℚ × ℚ) : Prop :=
  cross2 (c0.1 - p0.1, c0.2 - p0.2) (p1.1 - p0.1, p1.2 - p0.2) = 0 ∧
  cross2 (c1.1 - p0.1, c1.2 - p0.2) (p1.1 - p0.1, p1.2 - p0.2) = 0 ∧
  cross2 (c0.1 - p0.1, c0.2 - p0.2) (c1.1 - p0.1, c1.2 - p0.2) = 0

lemma pyRound_zero : pyRound (0 : ℚ) = 0 := by
  simpa using pyRound_intCast 0

lemma pyRound_six : pyRound (6 : ℚ) = 6 := by
  simpa using pyRound_intCast 6

lemma flatnessLE_c9_top : flatnessLE (0, 0) (8, 0) (8, 0) (0, 0) 1 = false := by
  unfold flatnessLE
  rw [if_pos (by norm_num)]
  rw [decide_eq_false_iff_not]
  norm_num

lemma flatnessLE_c9_left : flatnessLE (0, 0) (4, 0) (6, 0) (6, 0) 1 = true := by
  unfold flatnessLE
  rw [if_neg (by norm_num)]
  rw [decide_eq_true_eq]
  norm_num

lemma flatnessLE_c9_right : flatnessLE (6, 0) (6, 0) (4, 0) (0, 0) 1 = true := by
  unfold flatnessLE
  rw [if_neg (by norm_num)]
  rw [decide_eq_true_eq]
  norm_num

/-- C9 counterexample: the degenerate collinear segment with
`p0 = p1 = (0,0)` and both control points at `(8,0)` (all four points on
the x-axis) subdivides to the three points `[(0,0), (6,0), (0,0)]`, not to
the two endpoints, with tolerance `1 >= 0`; fuel 1 and fuel 2 give the
same list because both halves pass the flatness test immediately. -/
theorem claim_C9_counterexample :
    Collinear4 (0, 0) (8, 0) (8, 0) (0, 0) ∧ (0 : ℚ) ≤ 1 ∧
    subdivide_bezier 1 (0, 0) (8, 0) (8, 0) (0, 0) 1 =
      [(0, 0), (6, 0), (0, 0)] ∧
    subdivide_bezier 2 (0, 0) (8, 0) (8, 0) (0, 0) 1 =
      [(0, 0), (6, 0), (0, 0)] ∧
    subdivide_bezier 1 (0, 0) (8, 0) (8, 0) (0, 0) 1 ≠
      [roundPoint (0, 0), roundPoint (0, 0)] := by
  have hmid : ∀ f : ℕ,
      subdivideRec (f + 1) (0, 0) (8, 0) (8, 0) (0, 0) 1 =
        [(6, 0), (0, 0)] := by
    intro f
    rw [subdivideRec, if_neg (by rw [flatnessLE_c9_top]; simp)]
    dsimp only
    norm_num [-Prod.mk_zero_zero]
    cases f with
    | zero =>
      rw [subdivideRec, subdivideRec]
      unfold roundPoint
      norm_num [pyRound_zero, pyRound_six, -Prod.mk_zero_zero]
    | succ g =>
      rw [subdivideRec, if_pos flatnessLE_c9_left,
        subdivideRec, if_pos flatnessLE_c9_right]
      unfold roundPoint
      norm_num [pyRound_zero, pyRound_six, -Prod.mk_zero_zero]
  have h1 := hmid 0
  have h2 := hmid 1
  refine ⟨by unfold Collinear4 cross2; norm_num, by norm_num, ?_, ?_, ?_⟩
  · unfold subdivide_bezier
    rw [h1]
    unfold roundPoint
    norm_num [pyRound_zero, -Prod.mk_zero_zero]
  · unfold subdivide_bezier
    rw [h2]
    unfold roundPoint
    norm_num [pyRound_zero, -Prod.mk_zero_zero]
  · unfold subdivide_bezier
    rw [h1]
    unfold roundPoint
    norm_num [pyRound_zero, -Prod.mk_zero_zero]

lemma lengthSq_nonneg (p0 p1 : ℚ × ℚ) :
    0 ≤ (p1.1 - p0.1) * (p1.1 - p0.1) + (p1.2 - p0.2) * (p1.2 - p0.2) := by
  have h1 := mul_self_nonneg (p1.1 - p0.1)
  have h2 := mul_self_nonneg (p1.2 - p0.2)
  linarith

lemma one_le_length_append {α : Type} (l1 l2 : List α)
    (h : 1 ≤ l1.length) : 1 ≤ (l1 ++ l2).length := by
  rw [List.length_append]
  omega

lemma flatnessLE_mono (p0 c0 c1 p1 : ℚ × ℚ) (tol1 tol2 : ℚ)
    (hle : tol2 ≤ tol1) (h : flatnessLE p0 c0 c1 p1 tol2 = true) :
    flatnessLE p0 c0 c1 p1 tol1 = true := by
  unfold flatnessLE at h ⊢
  split at h <;> rename_i hcond
  · rw [if_pos hcond]
    rw [decide_eq_true_eq] at h ⊢
    obtain ⟨h0, ha, hb⟩ := h
    have ht : 0 ≤ tol1 := le_trans h0 hle
    have hsq : tol2 ^ 2 ≤ tol1 ^ 2 := by nlinarith
    exact ⟨ht, le_trans ha hsq, le_trans hb hsq⟩
  · rw [if_neg hcond]
    rw [decide_eq_true_eq] at h ⊢
    obtain ⟨h0, ha, hb⟩ := h
    have ht : 0 ≤ tol1 := le_trans h0 hle
    have hsq : tol2 ^ 2 ≤ tol1 ^ 2 := by nlinarith
    have hL := lengthSq_nonneg p0 p1
    exact ⟨ht, le_trans ha (by nlinarith), le_trans hb (by nlinarith)⟩

lemma subdivideRec_length_pos (fuel : ℕ) (p0 c0 c1 p1 : ℚ × ℚ) (tol : ℚ) :
    1 ≤ (subdivideRec fuel p0 c0 c1 p1 tol).length := by
  induction fuel generalizing p0 c0 c1 p1 with
  | zero => simp [subdivideRec]
  | succ f ih =>
    rw [subdivideRec]
    split
    · simp
    · dsimp only
      exact one_le_length_append _ _ (ih _ _ _ _)

/-- **C9 (amended).** For collinear control points whose chord is not
degenerate (`length_sq >= 1e-10`, the source's own threshold) and any
tolerance `>= 0`, `subdivide_bezier` returns exactly the two rounded
endpoints; and for a fixed curve, decreasing the tolerance never decreases
the number of returned points. -/
theorem claim_C9 :
    (∀ (fuel : ℕ) (p0 c0 c1 p1 : ℚ × ℚ) (tol : ℚ),
      Collinear4 p0 c0 c1 p1 → 0 ≤ tol →
      1 / 10000000000 ≤
        (p1.1 - p0.1) * (p1.1 - p0.1) + (p1.2 - p0.2) * (p1.2 - p0.2) →
      subdivide_bezier fuel p0 c0 c1 p1 tol =
        [roundPoint p0, roundPoint p1]) ∧
    (∀ (fuel : ℕ) (p0 c0 c1 p1 : ℚ × ℚ) (tol1 tol2 : ℚ), tol2 ≤ tol1 →
      (subdivide_bezier fuel p0 c0 c1 p1 tol1).length ≤
        (subdivide_bezier fuel p0 c0 c1 p1 tol2).length) := by
  constructor
  · intro fuel p0 c0 c1 p1 tol hcol htol hlen
    obtain ⟨hc0, hc1, _⟩ := hcol
    unfold cross2 at hc0 hc1
    simp only at hc0 hc1
    unfold subdivide_bezier
    cases fuel with
    | zero => rw [subdivideRec]
    | succ f =>
      have hflat : flatnessLE p0 c0 c1 p1 tol = true := by
        unfold flatnessLE
        rw [if_neg (by push_neg; exact hlen)]
        rw [decide_eq_true_eq]
        refine ⟨htol, ?_, ?_⟩
        · rw [hc0]
          rw [show ((0 : ℚ) ^ 2) = 0 by norm_num]
          exact mul_nonneg (sq_nonneg tol) (lengthSq_nonneg p0 p1)
        · rw [hc1]
          rw [show ((0 : ℚ) ^ 2) = 0 by norm_num]
          exact mul_nonneg (sq_nonneg tol) (lengthSq_nonneg p0 p1)
      rw [subdivideRec, if_pos hflat]
  · intro fuel p0 c0 c1 p1 tol1 tol2 hle
    unfold subdivide_bezier
    simp only [List.length_cons, Nat.add_le_add_iff_right]
    induction fuel generalizing p0 c0 c1 p1 with
    | zero => simp [subdivideRec]
    | succ f ih =>
      by_cases h2 : flatnessLE p0 c0 c1 p1 tol2 = true
      · have h1 := flatnessLE_mono p0 c0 c1 p1 tol1 tol2 hle h2
        rw [subdivideRec, if_pos h1, subdivideRec, if_pos h2]
      · by_cases h1 : flatnessLE p0 c0 c1 p1 tol1 = true
        · rw [subdivideRec, if_pos h1]
          calc ([roundPoint p1].length)
              = 1 := rfl
            _ ≤ _ := subdivideRec_length_pos _ _ _ _ _ _
        · rw [subdivideRec, if_neg (by simp [h1]), subdivideRec,
            if_neg (by simp [h2])]
          simp only [List.length_append]
          exact Nat.add_le_add (ih _ _ _ _) (ih _ _ _ _)

/-- Witness for C9 at a concrete collinear segment and tolerance pair. -/
theorem claim_C9_witness :
    subdivide_bezier 3 (0, 0) (1, 0) (2, 0) (3, 0) 1 =
      [roundPoint (0, 0), roundPoint (3, 0)] ∧
    (subdivide_bezier 2 (0, 0) (0, 10) (3, 10) (3, 0) 1).length ≤
      (subdivide_bezier 2 (0, 0) (0, 10) (3, 10) (3, 0) (1/2)).length := by
  constructor
  · exact claim_C9.1 3 (0, 0) (1, 0) (2, 0) (3, 0) 1
      (by unfold Collinear4 cross2; norm_num) (by norm_num) (by norm_num)
  · exact claim_C9.2 2 (0, 0) (0, 10) (3, 10) (3, 0) 1 (1/2) (by norm_num)

/-- One iteration chain of the Bresenham loop in `draw_line`
(`primitives.py` lines 20-62), with fuel.  Each iteration plots the
current pixel, stops at the endpoint, else advances `x` and/or `y` by the
error rule.  The loop always moves at least one coordinate per iteration
(otherwise `2*err <= -dy` and `2*err >= dx` force `dx = dy = 0`, which is
the endpoint), so fuel `|dx| + |dy| + 1` always suffices. -/
def bresenhamAux : ℕ → ℤ → ℤ → ℤ → ℤ → ℤ → ℤ → ℤ → ℤ → ℤ →
    List (ℤ × ℤ)
  | 0, x, y, _, _, _, _, _, _, _ => [(x, y)]
  | f + 1, x, y, x1, y1, dx, dy, sx, sy, err =>
    if x = x1 ∧ y = y1 then [(x, y)]
    else
      let e2 := 2 * err
      let err2 := if e2 > -dy then err - dy else err
      let x2 := if e2 > -dy then x + sx else x
      let err3 := if e2 < dx then err2 + dx else err2
      let y2 := if e2 < dx then y + sy else y
      (x, y) :: bresenhamAux f x2 y2 x1 y1 dx dy sx sy err3

/-- The pixel sequence of `draw_line(x0,y0,x1,y1)` (Bresenham). -/
def bresenhamPixels (x0 y0 x1 y1 : ℤ) : List (ℤ × ℤ) :=
  let dx := |x1 - x0|
  let dy := |y1 - y0|
  let sx : ℤ := if x0 < x1 then 1 else -1
  let sy : ℤ := if y0 < y1 then 1 else -1
  bresenhamAux (dx + dy + 1).toNat x0 y0 x1 y1 dx dy sx sy (dx - dy)

/-- Python `round` (half to even) on reals, for the rounded perpendicular
offsets of `_draw_thick_line`. -/
noncomputable def pyRoundR (x : ℝ) : ℤ :=
  let f := ⌊x⌋
  let r := x - f
  if r < 1/2 then f
  else if 1/2 < r then f + 1
  else if Even f then f else f + 1

/-- The rounded perpendicular offset of the `i`-th parallel line of
`_draw_thick_line` (vector_font.py lines 330-341): the unit normal
`(-dy, dx) / length` scaled by `offset = i - (stroke_width - 1) / 2` and
rounded per coordinate with Python `round`. -/
noncomputable def thickLineOffset (x0 y0 x1 y1 w : ℤ) (i : ℕ) : ℤ × ℤ :=
  let dx := x1 - x0
  let dy := y1 - y0
  let length : ℝ := Real.sqrt ((dx * dx + dy * dy : ℤ) : ℝ)
  (pyRoundR (-(dy : ℝ) / length * ((i : ℝ) - ((w : ℝ) - 1) / 2)),
   pyRoundR ((dx : ℝ) / length * ((i : ℝ) - ((w : ℝ) - 1) / 2)))

/-- `_draw_thick_line` from `vector_font.py` (lines 292-341), as the
sequence of pixels its `set_pixel`/`draw_line` calls touch.  For integer
coordinates `length < 0.001` holds exactly when `dx = dy = 0` (a nonzero
integer vector has length at least 1), so that test is embedded as
`dx*dx + dy*dy = 0`.  `stroke_width // 2` is Python floor division, equal
to `Int` division for the positive widths this branch handles.  The
perpendicular offsets are computed over `ℝ` and rounded with Python
`round`. -/
noncomputable def drawThickLinePixels (x0 y0 x1 y1 strokeWidth : ℤ) :
    List (ℤ × ℤ) :=
  if strokeWidth ≤ 1 then bresenhamPixels x0 y0 x1 y1
  else if (x1 - x0) * (x1 - x0) + (y1 - y0) * (y1 - y0) = 0 then
    (List.range (2 * (strokeWidth / 2) + 1).toNat).flatMap fun (i : ℕ) =>
      (List.range (2 * (strokeWidth / 2) + 1).toNat).map fun (j : ℕ) =>
        (x0 + (-(strokeWidth / 2) + (i : ℤ)),
         y0 + (-(strokeWidth / 2) + (j : ℤ)))
  else
    (List.range strokeWidth.toNat).flatMap fun i =>
      bresenhamPixels (x0 + (thickLineOffset x0 y0 x1 y1 strokeWidth i).1)
        (y0 + (thickLineOffset x0 y0 x1 y1 strokeWidth i).2)
        (x1 + (thickLineOffset x0 y0 x1 y1 strokeWidth i).1)
        (y1 + (thickLineOffset x0 y0 x1 y1 strokeWidth i).2)

/-- C6 counterexample: a zero-length segment with `stroke_width = 2`
fills a 3×3 = 9 pixel square (offsets `-1..1` in both axes), not a
`2 × 2` square of 4 pixels. -/
theorem claim_C6_counterexample :
    drawThickLinePixels 5 5 5 5 2 =
      [(4, 4), (4, 5), (4, 6), (5, 4), (5, 5), (5, 6), (6, 4), (6, 5),
       (6, 6)] ∧
    (drawThickLinePixels 5 5 5 5 2).length = 9 := by
  constructor <;> decide


/-- **C6 (amended).** `stroke_width <= 1` draws a single Bresenham line;
a zero-length segment with `stroke_width > 1` fills the
`(2*(stroke_width//2)+1)`-sided square of pixels centered at the point
(`stroke_width × stroke_width` only for odd widths); a nonzero-length
segment draws exactly `stroke_width` parallel Bresenham lines offset by
the rounded perpendicular-normal offsets, whose underlying real offsets
`i - (w-1)/2` symmetrically span `[-(w-1)/2, +(w-1)/2]`. -/
theorem claim_C6 :
    (∀ x0 y0 x1 y1 w : ℤ, w ≤ 1 →
      drawThickLinePixels x0 y0 x1 y1 w = bresenhamPixels x0 y0 x1 y1) ∧
    (∀ x0 y0 w : ℤ, 1 < w →
      (drawThickLinePixels x0 y0 x0 y0 w).length =
        ((2 * (w / 2) + 1) * (2 * (w / 2) + 1)).toNat ∧
      ∀ u v : ℤ, (x0 + u, y0 + v) ∈ drawThickLinePixels x0 y0 x0 y0 w ↔
        (-(w / 2) ≤ u ∧ u ≤ w / 2 ∧ -(w / 2) ≤ v ∧ v ≤ w / 2)) ∧
    (∀ x0 y0 x1 y1 w : ℤ, 1 < w →
      (x1 - x0) * (x1 - x0) + (y1 - y0) * (y1 - y0) ≠ 0 →
      drawThickLinePixels x0 y0 x1 y1 w =
        (List.range w.toNat).flatMap fun i =>
          bresenhamPixels
            (x0 + (thickLineOffset x0 y0 x1 y1 w i).1)
            (y0 + (thickLineOffset x0 y0 x1 y1 w i).2)
            (x1 + (thickLineOffset x0 y0 x1 y1 w i).1)
            (y1 + (thickLineOffset x0 y0 x1 y1 w i).2)) ∧
    (∀ w : ℤ, ∀ i : ℕ, (i : ℤ) < w →
      ((i : ℝ) - ((w : ℝ) - 1) / 2) =
        -((((w - 1 - (i : ℤ)) : ℤ) : ℝ) - ((w : ℝ) - 1) / 2) ∧
      -(((w : ℝ) - 1) / 2) ≤ (i : ℝ) - ((w : ℝ) - 1) / 2 ∧
      (i : ℝ) - ((w : ℝ) - 1) / 2 ≤ ((w : ℝ) - 1) / 2) := by
  refine ⟨?_, ?_, ?_, ?_⟩
  · intro x0 y0 x1 y1 w h
    unfold drawThickLinePixels
    rw [if_pos h]
  · intro x0 y0 w hw
    have h1 : ¬ (w ≤ 1) := by omega
    have h2 : (x0 - x0) * (x0 - x0) + (y0 - y0) * (y0 - y0) = 0 := by ring
    constructor
    · unfold drawThickLinePixels
      rw [if_neg h1, if_pos h2]
      rw [List.length_flatMap]
      simp only [Function.comp_def, List.length_map, List.length_range]
      rw [List.map_const', List.length_range, List.sum_replicate,
        smul_eq_mul]
      have hn : (0 : ℤ) ≤ 2 * (w / 2) + 1 := by omega
      obtain ⟨n, hn2⟩ := Int.eq_ofNat_of_zero_le hn
      rw [hn2, ← Nat.cast_mul, Int.toNat_natCast, Int.toNat_natCast]
    · intro u v
      unfold drawThickLinePixels
      rw [if_neg h1, if_pos h2]
      simp only [List.mem_flatMap, List.mem_map, List.mem_range,
        Prod.mk.injEq]
      constructor
      · rintro ⟨i, hi, j, hj, hx, hy⟩
        omega
      · rintro ⟨hu1, hu2, hv1, hv2⟩
        refine ⟨(u + w / 2).toNat, by omega, (v + w / 2).toNat,
          by omega, by omega, by omega⟩
  · intro x0 y0 x1 y1 w hw hnz
    unfold drawThickLinePixels
    rw [if_neg (by omega), if_neg hnz]
  · intro w i hi
    have hiw : (i : ℝ) ≤ (w : ℝ) - 1 := by
      have : (i : ℤ) ≤ w - 1 := by omega
      calc (i : ℝ) = ((i : ℤ) : ℝ) := by push_cast; ring
        _ ≤ ((w - 1 : ℤ) : ℝ) := by exact_mod_cast this
        _ = (w : ℝ) - 1 := by push_cast; ring
    have hi0 : (0 : ℝ) ≤ (i : ℝ) := by positivity
    refine ⟨?_, by linarith, by linarith⟩
    push_cast
    ring

/-- Witness for C6 at concrete segments and widths. -/
theorem claim_C6_witness :
    drawThickLinePixels 0 0 3 2 1 = bresenhamPixels 0 0 3 2 ∧
    (drawThickLinePixels 10 10 10 10 3).length =
      ((2 * ((3 : ℤ) / 2) + 1) * (2 * ((3 : ℤ) / 2) + 1)).toNat := by
  constructor
  · exact claim_C6.1 0 0 3 2 1 (by norm_num)
  · exact (claim_C6.2.1 10 10 3 (by norm_num)).1

/-- Arc length of the subdivided polyline, as accumulated by
`stroke_bezier_texture_ball` (bezier.py lines 444-449): the sum of
`sqrt(dx*dx + dy*dy)` over consecutive integer points. -/
noncomputable def polylineArcLength : List (ℤ × ℤ) → ℝ
  | a :: b :: rest =>
    Real.sqrt (((b.1 - a.1) * (b.1 - a.1) + (b.2 - a.2) * (b.2 - a.2) : ℤ) : ℝ) +
      polylineArcLength (b :: rest)
  | _ => 0

/-- Python `int()` on a float: truncation toward zero. -/
noncomputable def pyInt (x : ℝ) : ℤ := if 0 ≤ x then ⌊x⌋ else -⌊-x⌋

/-- `num_steps = max(1, int(arc_length / spacing))` from
`stroke_bezier_texture_ball` (bezier.py line 456). -/
noncomputable def numSteps (arcLength spacing : ℝ) : ℤ :=
  max 1 (pyInt (arcLength / spacing))

/-- The stamp parameters of one bezier segment of
`stroke_bezier_texture_ball` (bezier.py lines 451-467): a segment with
`arc_length < 0.1` is skipped entirely; otherwise stamps are placed at
`t = step / num_steps` (`0.0` if `num_steps = 0`) for
`step = 0, ..., num_steps`, skipping step 0 on every segment but the
first. -/
noncomputable def stampParams (arcLength spacing : ℝ) (isFirst : Bool) :
    List ℝ :=
  if arcLength < 1/10 then []
  else
    let n := numSteps arcLength spacing
    ((List.range (n.toNat + 1)).filter
      fun (step : ℕ) => isFirst || step ≠ 0).map
      fun (step : ℕ) => if 0 < n then ((step : ℕ) : ℝ) / ((n : ℤ) : ℝ) else 0

lemma pyRound_three : pyRound (3 : ℚ) = 3 := by
  simpa using pyRound_intCast 3

/-- C7 counterexample: the straight segment from `(0,0)` to `(3,0)` with
`spacing = 2` has subdivided polyline `[(0,0), (3,0)]` and arc length `3`;
the code takes `max(1, int(3/2)) = 1` uniform parameter step and stamps at
`t ∈ {0, 1}`, whereas `max(1, round(3/2)) = 2` would stamp at
`t ∈ {0, 1/2, 1}`. -/
theorem claim_C7_counterexample :
    subdivide_bezier 5 (0, 0) (0, 0) (3, 0) (3, 0) 2 = [(0, 0), (3, 0)] ∧
    polylineArcLength [(0, 0), (3, 0)] = 3 ∧
    numSteps 3 2 = 1 ∧
    max 1 (pyRoundR ((3 : ℝ) / 2)) = 2 ∧
    stampParams 3 2 true = [0, 1] ∧
    stampParams 3 2 true ≠ [0, 1/2, 1] := by
  have hflat : flatnessLE (0, 0) (0, 0) (3, 0) (3, 0) 2 = true := by
    unfold flatnessLE
    rw [if_neg (by norm_num)]
    rw [decide_eq_true_eq]
    norm_num
  have hfloor : ⌊(3 : ℝ) / 2⌋ = 1 := by
    rw [Int.floor_eq_iff]
    norm_num
  have hns : numSteps 3 2 = 1 := by
    unfold numSteps pyInt
    rw [if_pos (by norm_num), hfloor]
    simp
  have hsp : stampParams 3 2 true = [0, 1] := by
    unfold stampParams
    rw [if_neg (by norm_num), hns]
    norm_num [List.range_succ, List.filter_cons, List.filter_nil]
  refine ⟨?_, ?_, hns, ?_, hsp, by rw [hsp]; simp⟩
  · unfold subdivide_bezier
    rw [show (5 : ℕ) = 4 + 1 from rfl, subdivideRec, if_pos hflat]
    unfold roundPoint
    rw [pyRound_zero, pyRound_three]
  · rw [polylineArcLength,
      show polylineArcLength [((3 : ℤ), (0 : ℤ))] = 0 from rfl]
    norm_num
    rw [show (9 : ℝ) = 3 ^ 2 by norm_num,
      Real.sqrt_sq (by norm_num : (0 : ℝ) ≤ 3)]
  · unfold pyRoundR
    rw [hfloor]
    norm_num

/-- **C7 (amended).** For a processed segment (`arc_length >= 0.1`) with
positive spacing, the number of uniform parameter steps is
`max(1, floor(arc_length / spacing))` — `int()` truncation, not `round`
— and stamps are placed at the uniform parameters `t = step/steps`:
`steps + 1` stamps on the first segment (`t = 0, 1/steps, ..., 1`), and
`steps` stamps on later segments (step 0 skipped). -/
theorem claim_C7 :
    ∀ (L spacing : ℝ) (first : Bool), 1/10 ≤ L → 0 < spacing →
      numSteps L spacing = max 1 ⌊L / spacing⌋ ∧
      stampParams L spacing first =
        ((List.range ((max 1 ⌊L / spacing⌋).toNat + 1)).filter
          fun (step : ℕ) => first || step ≠ 0).map
          (fun (step : ℕ) =>
            ((step : ℕ) : ℝ) / ((max 1 ⌊L / spacing⌋ : ℤ) : ℝ)) ∧
      (stampParams L spacing true).length =
        (max 1 ⌊L / spacing⌋).toNat + 1 ∧
      (stampParams L spacing false).length =
        (max 1 ⌊L / spacing⌋).toNat := by
  intro L spacing first hL hsp
  have hq : (0 : ℝ) ≤ L / spacing :=
    div_nonneg (by linarith) (le_of_lt hsp)
  have h1 : numSteps L spacing = max 1 ⌊L / spacing⌋ := by
    unfold numSteps pyInt
    rw [if_pos hq]
  have hn : (0 : ℤ) < max 1 ⌊L / spacing⌋ :=
    lt_of_lt_of_le one_pos (le_max_left 1 _)
  have h2 : ∀ fb : Bool, stampParams L spacing fb =
      ((List.range ((max 1 ⌊L / spacing⌋).toNat + 1)).filter
        fun (step : ℕ) => fb || step ≠ 0).map
        (fun (step : ℕ) =>
          ((step : ℕ) : ℝ) / ((max 1 ⌊L / spacing⌋ : ℤ) : ℝ)) := by
    intro fb
    unfold stampParams
    rw [if_neg (by linarith), h1]
    simp [hn]
  refine ⟨h1, h2 first, ?_, ?_⟩
  · rw [h2 true]
    simp
  · rw [h2 false]
    rw [List.length_map]
    rw [List.range_succ_eq_map]
    simp [List.filter_cons, List.filter_map, Function.comp_def,
      Nat.succ_ne_zero]

/-- Witness for C7 at `arc_length = 3`, `spacing = 2`. -/
theorem claim_C7_witness :
    numSteps 3 2 = max 1 ⌊(3 : ℝ) / 2⌋ ∧
    (stampParams 3 2 true).length = (max 1 ⌊(3 : ℝ) / 2⌋).toNat + 1 :=
  ⟨(claim_C7 3 2 true (by norm_num) (by norm_num)).1,
   (claim_C7 3 2 true (by norm_num) (by norm_num)).2.2.1⟩


/-- The byte transform of one masked write: `b |= m` or `b &= ~m`. -/
def updByte (c : Bool) (b m : ℕ) : ℕ :=
  if c then b ||| m else b &&& (255 ^^^ m)

lemma testBit_ge_eight {m : ℕ} (hm : m < 256) {i : ℕ} (hi : 8 ≤ i) :
    m.testBit i = false := by
  apply Nat.testBit_lt_two_pow
  calc m < 256 := hm
    _ = 2 ^ 8 := by norm_num
    _ ≤ 2 ^ i := Nat.pow_le_pow_right (by norm_num) hi

lemma compl_and_compl (m1 m2 : ℕ) (h1 : m1 < 256) (h2 : m2 < 256) :
    (255 ^^^ m1) &&& (255 ^^^ m2) = 255 ^^^ (m1 ||| m2) := by
  apply Nat.eq_of_testBit_eq
  intro i
  simp only [Nat.testBit_and, Nat.testBit_xor, Nat.testBit_lor]
  by_cases hi : i < 8
  · have h255 : (255 : ℕ).testBit i = true := by
      have h : (255 : ℕ) = 2 ^ 8 - 1 := by norm_num
      rw [h, Nat.testBit_two_pow_sub_one]
      simpa using hi
    rw [h255]
    cases m1.testBit i <;> cases m2.testBit i <;> rfl
  · have h255 : (255 : ℕ).testBit i = false :=
      testBit_ge_eight (by norm_num) (by omega)
    rw [h255, testBit_ge_eight h1 (by omega), testBit_ge_eight h2 (by omega)]
    rfl

lemma updByte_updByte (c : Bool) (b m1 m2 : ℕ) (h1 : m1 < 256)
    (h2 : m2 < 256) :
    updByte c (updByte c b m1) m2 = updByte c b (m1 ||| m2) := by
  unfold updByte
  cases c
  · simp only [Bool.false_eq_true, if_false]
    rw [Nat.and_assoc, compl_and_compl m1 m2 h1 h2]
  · simp only [if_true]
    rw [Nat.or_assoc]

lemma length_applyMask (buf : List ℕ) (i : ℕ) (c : Bool) (m : ℕ) :
    (applyMask buf i c m).length = buf.length := by
  unfold applyMask
  split <;> simp [List.length_set]

lemma applyMask_eq_set (buf : List ℕ) (i : ℕ) (c : Bool) (m : ℕ) :
    applyMask buf i c m = buf.set i (updByte c (buf.getD i 0) m) := by
  unfold applyMask updByte
  cases c <;> simp

lemma applyMask_applyMask_same (buf : List ℕ) (i : ℕ) (c : Bool)
    (m1 m2 : ℕ) (h1 : m1 < 256) (h2 : m2 < 256) :
    applyMask (applyMask buf i c m1) i c m2 = applyMask buf i c (m1 ||| m2) := by
  rw [applyMask_eq_set, applyMask_eq_set, applyMask_eq_set, List.set_set]
  by_cases hlt : i < buf.length
  · rw [getD_set_self _ _ _ hlt, updByte_updByte c _ m1 m2 h1 h2]
  · have hle : buf.length ≤ i := le_of_not_lt hlt
    rw [List.set_eq_of_length_le hle, List.set_eq_of_length_le hle]

lemma applyMask_comm (buf : List ℕ) (i j : ℕ) (c : Bool) (m1 m2 : ℕ)
    (hij : i ≠ j) :
    applyMask (applyMask buf i c m1) j c m2 =
      applyMask (applyMask buf j c m2) i c m1 := by
  rw [applyMask_eq_set, applyMask_eq_set, applyMask_eq_set, applyMask_eq_set,
    getD_set_of_ne _ _ _ _ hij, getD_set_of_ne _ _ _ _ (Ne.symm hij),
    List.set_comm _ _ _ hij]


/-- The pixel mask of bit positions `s <= t < e` of one byte (bit 7 is
the leftmost pixel), matching the mask loops of `fill_span`. -/
def bitsMask (s e : ℕ) : ℕ :=
  (List.range (e - s)).foldl (fun m k => m ||| (1 <<< (7 - (s + k)))) 0

lemma bitsMask_succ (s e : ℕ) (hse : s ≤ e) :
    bitsMask s (e + 1) = bitsMask s e ||| (1 <<< (7 - e)) := by
  unfold bitsMask
  rw [show e + 1 - s = (e - s) + 1 by omega, List.range_succ,
    List.foldl_append, List.foldl_cons, List.foldl_nil,
    show s + (e - s) = e by omega]

lemma shift_bit_lt_256 (t : ℕ) : (1 <<< (7 - t)) < 256 := by
  rw [Nat.shiftLeft_eq, Nat.one_mul]
  calc (2 : ℕ) ^ (7 - t) ≤ 2 ^ 7 := Nat.pow_le_pow_right (by norm_num) (by omega)
    _ < 256 := by norm_num

lemma bitsMask_lt_256 (s e : ℕ) : bitsMask s e < 256 := by
  unfold bitsMask
  generalize List.range (e - s) = l
  have h : ∀ (l : List ℕ) (m : ℕ), m < 256 →
      l.foldl (fun m k => m ||| (1 <<< (7 - (s + k)))) m < 256 := by
    intro l
    induction l with
    | nil => intro m hm; exact hm
    | cons k t ih =>
      intro m hm
      rw [List.foldl_cons]
      apply ih
      have h2 := shift_bit_lt_256 (s + k)
      have h256 : (256 : ℕ) = 2 ^ 8 := by norm_num
      rw [h256] at hm h2 ⊢
      exact Nat.or_lt_two_pow hm h2
  exact h l 0 (by norm_num)

lemma sameByteMask_eq_bitsMask (sb eb : ℕ) :
    sameByteMask sb eb = bitsMask sb (eb + 1) := by
  unfold sameByteMask bitsMask
  rw [show eb + 1 - sb = eb + 1 - sb from rfl]


lemma set_getD_self (l : List ℕ) (i : ℕ) : l.set i (l.getD i 0) = l := by
  induction l generalizing i with
  | nil => rfl
  | cons a t ih =>
    cases i with
    | zero => rfl
    | succ n =>
      show a :: t.set n (t.getD n 0) = a :: t
      rw [ih]

lemma applyMask_zero (buf : List ℕ) (i : ℕ) (c : Bool)
    (hbytes : ∀ v ∈ buf, v < 256) : applyMask buf i c 0 = buf := by
  rw [applyMask_eq_set]
  cases c
  · show buf.set i (buf.getD i 0 &&& (255 ^^^ 0)) = buf
    rw [Nat.xor_zero]
    by_cases hlt : i < buf.length
    · have hv : buf.getD i 0 < 256 := by
        apply hbytes
        rw [List.getD_eq_getElem?_getD, List.getElem?_eq_getElem hlt]
        exact List.getElem_mem _
      have h255 : buf.getD i 0 &&& 255 = buf.getD i 0 := by
        have hv2 : buf.getD i 0 < 2 ^ 8 := lt_of_lt_of_eq hv (by norm_num)
        have h := Nat.and_pow_two_sub_one_of_lt_two_pow (n := 8) hv2
        rw [show (2 : ℕ) ^ 8 - 1 = 255 by norm_num] at h
        exact h
      rw [h255, set_getD_self]
    · rw [List.set_eq_of_length_le (by omega)]
  · show buf.set i (buf.getD i 0 ||| 0) = buf
    rw [Nat.or_zero, set_getD_self]

lemma getD_mem_lt (buf : List ℕ) (i : ℕ) (hbytes : ∀ v ∈ buf, v < 256) :
    buf.getD i 0 < 256 := by
  by_cases hlt : i < buf.length
  · apply hbytes
    rw [List.getD_eq_getElem?_getD, List.getElem?_eq_getElem hlt]
    exact List.getElem_mem _
  · rw [List.getD_eq_getElem?_getD, List.getElem?_eq_none (by omega)]
    norm_num

lemma applyMask_bytes_lt (buf : List ℕ) (i : ℕ) (c : Bool) (m : ℕ)
    (hm : m < 256) (hbytes : ∀ v ∈ buf, v < 256) :
    ∀ v ∈ applyMask buf i c m, v < 256 := by
  rw [applyMask_eq_set]
  intro v hv
  rcases List.mem_or_eq_of_mem_set hv with h | h
  · exact hbytes v h
  · subst h
    unfold updByte
    have hb := getD_mem_lt buf i hbytes
    cases c
    · simp only [Bool.false_eq_true, if_false]
      calc buf.getD i 0 &&& (255 ^^^ m) ≤ buf.getD i 0 := Nat.and_le_left
        _ < 256 := hb
    · simp only [if_true]
      have h256 : (256 : ℕ) = 2 ^ 8 := by norm_num
      rw [h256] at hb hm ⊢
      exact Nat.or_lt_two_pow hb hm

lemma setPixel_eq_applyMask (buf : List ℕ) (x y : ℤ) (c : Bool)
    (hx0 : 0 ≤ x) (hx4 : x < 400) (hy0 : 0 ≤ y) (hy3 : y < 300) :
    setPixel buf x y c =
      applyMask buf (y.toNat * BYTES_PER_ROW + (x.toNat >>> 3)) c
        (1 <<< (7 - x.toNat % 8)) := by
  unfold setPixel applyMask
  rw [if_neg (by simp only [WIDTH, HEIGHT]; omega)]

lemma setPixelRange_empty (buf : List ℕ) (y a b : ℤ) (c : Bool)
    (hab : b ≤ a) : setPixelRange buf y a b c = buf := by
  unfold setPixelRange
  rw [show (b - a).toNat = 0 by omega, List.range_zero, List.foldl_nil]

lemma setPixelRange_succ (buf : List ℕ) (y a b : ℤ) (c : Bool)
    (hab : a ≤ b) :
    setPixelRange buf y a (b + 1) c =
      setPixel (setPixelRange buf y a b c) b y c := by
  unfold setPixelRange
  rw [show (b + 1 - a).toNat = (b - a).toNat + 1 by omega, List.range_succ,
    List.foldl_append, List.foldl_cons, List.foldl_nil,
    show a + (((b - a).toNat : ℕ) : ℤ) = b by omega]

lemma setPixelRange_split (buf : List ℕ) (y a m b : ℤ) (c : Bool)
    (h1 : a ≤ m) (h2 : m ≤ b) :
    setPixelRange buf y a b c =
      setPixelRange (setPixelRange buf y a m c) y m b c := by
  unfold setPixelRange
  rw [show (b - a).toNat = (m - a).toNat + (b - m).toNat by omega,
    List.range_add, List.foldl_append, List.foldl_map]
  congr 1
  funext bb k
  congr 1
  omega


lemma foldl_applyMask_bytes_lt (l : List ℕ) (buf : List ℕ) (c : Bool)
    (g : ℕ → ℕ) (m : ℕ → ℕ) (hm : ∀ k, m k < 256)
    (hbytes : ∀ v ∈ buf, v < 256) :
    ∀ v ∈ l.foldl (fun bb k => applyMask bb (g k) c (m k)) buf, v < 256 := by
  refine foldl_preserve_mem (fun bb => ∀ v ∈ bb, v < 256) _ _ _ ?_ hbytes
  intro bb k _ hb
  exact applyMask_bytes_lt bb (g k) c (m k) (hm k) hb

lemma pixelRun_eq_applyMask (buf : List ℕ) (y : ℤ) (c : Bool) (B s e : ℕ)
    (hbytes : ∀ v ∈ buf, v < 256) (hB : B < 50) (hse : s ≤ e) (he : e ≤ 8)
    (hy0 : 0 ≤ y) (hy3 : y < 300) :
    setPixelRange buf y (8 * (B : ℤ) + (s : ℤ)) (8 * (B : ℤ) + (e : ℤ)) c =
      applyMask buf (y.toNat * BYTES_PER_ROW + B) c (bitsMask s e) := by
  induction e, hse using Nat.le_induction with
  | base =>
    rw [setPixelRange_empty _ _ _ _ _ (by omega),
      show bitsMask s s = 0 by unfold bitsMask; simp,
      applyMask_zero _ _ _ hbytes]
  | succ e hse ih =>
    rw [show (8 * (B : ℤ) + ((e : ℕ) + 1 : ℕ)) = (8 * (B : ℤ) + e) + 1 by
        push_cast; ring,
      setPixelRange_succ _ _ _ _ _ (by omega),
      ih (by omega),
      setPixel_eq_applyMask _ _ _ _ (by omega)
        (by omega) hy0 hy3]
    have ht : (8 * (B : ℤ) + (e : ℤ)).toNat = 8 * B + e := by omega
    have hsr : (8 * B + e) >>> 3 = (8 * B + e) / 2 ^ 3 :=
      Nat.shiftRight_eq_div_pow _ _
    have hdiv : (8 * B + e) / 2 ^ 3 = B := by
      rw [show (2 : ℕ) ^ 3 = 8 by norm_num]
      omega
    have hmod : (8 * B + e) % 8 = e := by omega
    rw [ht, hsr, hdiv, hmod,
      applyMask_applyMask_same _ _ _ _ _ (bitsMask_lt_256 s e)
        (shift_bit_lt_256 e),
      ← bitsMask_succ s e hse]

lemma pixelRun_full_bytes (buf : List ℕ) (y : ℤ) (c : Bool) (u v : ℕ)
    (hbytes : ∀ w ∈ buf, w < 256) (huv : u ≤ v) (hv : v ≤ 50)
    (hy0 : 0 ≤ y) (hy3 : y < 300) :
    setPixelRange buf y (8 * (u : ℤ)) (8 * (v : ℤ)) c =
      (List.range (v - u)).foldl
        (fun bb k => applyMask bb (y.toNat * BYTES_PER_ROW + (u + k)) c 255)
        buf := by
  induction v, huv using Nat.le_induction with
  | base =>
    rw [setPixelRange_empty _ _ _ _ _ (by omega)]
    simp
  | succ v huv ih =>
    rw [setPixelRange_split buf y (8 * (u : ℤ)) (8 * (v : ℤ))
        (8 * ((v : ℕ) + 1 : ℕ)) c (by omega) (by omega),
      ih (by omega)]
    have hb2 : ∀ w ∈ (List.range (v - u)).foldl
        (fun bb k => applyMask bb (y.toNat * BYTES_PER_ROW + (u + k)) c 255)
        buf, w < 256 :=
      foldl_applyMask_bytes_lt _ _ _ _ _ (fun _ => by norm_num) hbytes
    have hp := pixelRun_eq_applyMask _ y c v 0 8 hb2 (by omega) (by omega)
      (by omega) hy0 hy3
    rw [show (8 * ((v : ℕ) : ℤ) + ((0 : ℕ) : ℤ)) = 8 * (v : ℤ) by push_cast; ring,
      show (8 * ((v : ℕ) : ℤ) + ((8 : ℕ) : ℤ)) = 8 * ((v : ℕ) + 1 : ℕ) by push_cast; ring]
      at hp
    rw [hp, show bitsMask 0 8 = 255 by decide,
      show v + 1 - u = (v - u) + 1 by omega, List.range_succ,
      List.foldl_append, List.foldl_cons, List.foldl_nil,
      show u + (v - u) = v by omega]


lemma testBit_255_lt (j : ℕ) (hj : j < 8) : (255 : ℕ).testBit j = true := by
  have h : (255 : ℕ) = 2 ^ 8 - 1 := by norm_num
  rw [h, Nat.testBit_two_pow_sub_one]
  simpa using hj

lemma set_fill_eq_applyMask (buf : List ℕ) (i : ℕ) (c : Bool)
    (hbytes : ∀ v ∈ buf, v < 256) :
    buf.set i (if c then 255 else 0) = applyMask buf i c 255 := by
  rw [applyMask_eq_set]
  cases c
  · show buf.set i 0 = buf.set i (updByte false (buf.getD i 0) 255)
    unfold updByte
    rw [if_neg (by simp), Nat.xor_self, Nat.and_zero]
  · show buf.set i 255 = buf.set i (updByte true (buf.getD i 0) 255)
    unfold updByte
    rw [if_pos rfl]
    have hb := getD_mem_lt buf i hbytes
    have hor : buf.getD i 0 ||| 255 = 255 := by
      apply Nat.eq_of_testBit_eq
      intro j
      simp only [Nat.testBit_lor]
      by_cases hj : j < 8
      · rw [testBit_255_lt j hj]
        simp
      · rw [testBit_ge_eight hb (by omega),
          testBit_ge_eight (by norm_num) (by omega)]
        rfl
    rw [hor]

/-- The full-byte middle loop of `fill_span` as repeated masked writes. -/
def applyMaskRange (buf : List ℕ) (c : Bool) (R i0 n : ℕ) : List ℕ :=
  (List.range n).foldl (fun bb k => applyMask bb (R + i0 + k) c 255) buf

lemma applyMaskRange_zero (buf : List ℕ) (c : Bool) (R i0 : ℕ) :
    applyMaskRange buf c R i0 0 = buf := rfl

lemma applyMaskRange_succ (buf : List ℕ) (c : Bool) (R i0 n : ℕ) :
    applyMaskRange buf c R i0 (n + 1) =
      applyMask (applyMaskRange buf c R i0 n) (R + i0 + n) c 255 := by
  unfold applyMaskRange
  rw [List.range_succ, List.foldl_append, List.foldl_cons, List.foldl_nil]

lemma applyMaskRange_cons (buf : List ℕ) (c : Bool) (R i0 n : ℕ) :
    applyMaskRange buf c R i0 (n + 1) =
      applyMaskRange (applyMask buf (R + i0) c 255) c R (i0 + 1) n := by
  unfold applyMaskRange
  rw [List.range_succ_eq_map, List.foldl_cons, List.foldl_map]
  have hf : (fun (bb : List ℕ) (k : ℕ) =>
      applyMask bb (R + i0 + (k + 1)) c 255) =
      fun bb k => applyMask bb (R + (i0 + 1) + k) c 255 := by
    funext bb k
    congr 1
    omega
  rw [show R + i0 + 0 = R + i0 by omega, hf]

lemma applyMaskRange_bytes_lt (buf : List ℕ) (c : Bool) (R i0 n : ℕ)
    (hbytes : ∀ v ∈ buf, v < 256) :
    ∀ v ∈ applyMaskRange buf c R i0 n, v < 256 :=
  foldl_applyMask_bytes_lt _ _ _ _ _ (fun _ => by norm_num) hbytes

lemma applyMask_comm_applyMaskRange (buf : List ℕ) (c : Bool)
    (R i0 n j mj : ℕ) (hj : ∀ k, k < n → R + i0 + k ≠ j) :
    applyMaskRange (applyMask buf j c mj) c R i0 n =
      applyMask (applyMaskRange buf c R i0 n) j c mj := by
  induction n generalizing buf i0 with
  | zero => rfl
  | succ n ih =>
    rw [applyMaskRange_cons, applyMaskRange_cons,
      applyMask_comm buf j (R + i0) c mj 255
        (Ne.symm (hj 0 (by omega))),
      ih _ _ (fun k hk => by have := hj (k + 1) (by omega); omega)]

lemma setFillRange_eq_applyMaskRange (buf : List ℕ) (c : Bool)
    (R i0 n : ℕ) (hbytes : ∀ v ∈ buf, v < 256) :
    (List.range n).foldl
      (fun bb k => bb.set (R + i0 + k) (if c then 255 else 0)) buf =
      applyMaskRange buf c R i0 n := by
  induction n with
  | zero => rfl
  | succ n ih =>
    rw [List.range_succ, List.foldl_append, List.foldl_cons, List.foldl_nil,
      ih, applyMaskRange_succ,
      set_fill_eq_applyMask _ _ _ (applyMaskRange_bytes_lt _ _ _ _ _ hbytes)]

lemma startMask_eq_bitsMask : ∀ sb : ℕ, sb < 8 →
    (1 <<< (8 - sb)) - 1 = bitsMask sb 8 := by decide

lemma endMask_eq_bitsMask : ∀ eb : ℕ, eb < 8 →
    (255 <<< (7 - eb)) &&& 255 = bitsMask 0 (eb + 1) := by decide


lemma pixelRun_full_bytes_range (buf : List ℕ) (y : ℤ) (c : Bool)
    (u v : ℕ) (hbytes : ∀ w ∈ buf, w < 256) (huv : u ≤ v) (hv : v ≤ 50)
    (hy0 : 0 ≤ y) (hy3 : y < 300) :
    setPixelRange buf y (8 * (u : ℤ)) (8 * (v : ℤ)) c =
      applyMaskRange buf c (y.toNat * BYTES_PER_ROW) u (v - u) := by
  rw [pixelRun_full_bytes buf y c u v hbytes huv hv hy0 hy3]
  unfold applyMaskRange
  have hf : (fun (bb : List ℕ) (k : ℕ) =>
      applyMask bb (y.toNat * BYTES_PER_ROW + (u + k)) c 255) =
      fun bb k => applyMask bb (y.toNat * BYTES_PER_ROW + u + k) c 255 := by
    funext bb k
    congr 1
    omega
  rw [hf]

lemma setPixelRange_decomp (buf : List ℕ) (y : ℤ) (c : Bool)
    (Bs Be sb eb : ℕ) (hbytes : ∀ v ∈ buf, v < 256)
    (hy0 : 0 ≤ y) (hy3 : y < 300) (hBsBe : Bs < Be) (hBe : Be < 50)
    (hsb : sb < 8) (heb : eb < 8) :
    setPixelRange buf y (8 * (Bs : ℤ) + (sb : ℤ))
        (8 * (Be : ℤ) + (eb : ℤ) + 1) c =
      applyMask
        (applyMaskRange (applyMask buf (y.toNat * BYTES_PER_ROW + Bs) c
            (bitsMask sb 8)) c (y.toNat * BYTES_PER_ROW) (Bs + 1)
          (Be - (Bs + 1)))
        (y.toNat * BYTES_PER_ROW + Be) c (bitsMask 0 (eb + 1)) := by
  rw [setPixelRange_split buf y _ (8 * ((Bs + 1 : ℕ) : ℤ)) _ c
      (by push_cast; omega) (by omega),
    setPixelRange_split _ y _ (8 * ((Be : ℕ) : ℤ)) _ c
      (by omega) (by omega)]
  have e1 : setPixelRange buf y (8 * (Bs : ℤ) + (sb : ℤ))
      (8 * ((Bs + 1 : ℕ) : ℤ)) c =
      applyMask buf (y.toNat * BYTES_PER_ROW + Bs) c (bitsMask sb 8) := by
    rw [show (8 * ((Bs + 1 : ℕ) : ℤ)) = 8 * (Bs : ℤ) + ((8 : ℕ) : ℤ) by
        push_cast; ring]
    exact pixelRun_eq_applyMask buf y c Bs sb 8 hbytes (by omega)
      (by omega) (by omega) hy0 hy3
  rw [e1]
  have hb1 : ∀ v ∈ applyMask buf (y.toNat * BYTES_PER_ROW + Bs) c
      (bitsMask sb 8), v < 256 :=
    applyMask_bytes_lt _ _ _ _ (bitsMask_lt_256 _ _) hbytes
  rw [pixelRun_full_bytes_range _ y c (Bs + 1) Be hb1 (by omega) (by omega)
    hy0 hy3]
  have hb2 : ∀ v ∈ applyMaskRange
      (applyMask buf (y.toNat * BYTES_PER_ROW + Bs) c (bitsMask sb 8)) c
      (y.toNat * BYTES_PER_ROW) (Bs + 1) (Be - (Bs + 1)), v < 256 :=
    applyMaskRange_bytes_lt _ _ _ _ _ hb1
  have e3 : setPixelRange (applyMaskRange
      (applyMask buf (y.toNat * BYTES_PER_ROW + Bs) c (bitsMask sb 8)) c
      (y.toNat * BYTES_PER_ROW) (Bs + 1) (Be - (Bs + 1))) y
      (8 * ((Be : ℕ) : ℤ)) (8 * (Be : ℤ) + (eb : ℤ) + 1) c =
      applyMask (applyMaskRange
        (applyMask buf (y.toNat * BYTES_PER_ROW + Bs) c (bitsMask sb 8)) c
        (y.toNat * BYTES_PER_ROW) (Bs + 1) (Be - (Bs + 1)))
        (y.toNat * BYTES_PER_ROW + Be) c (bitsMask 0 (eb + 1)) := by
    have hp := pixelRun_eq_applyMask (applyMaskRange
      (applyMask buf (y.toNat * BYTES_PER_ROW + Bs) c (bitsMask sb 8)) c
      (y.toNat * BYTES_PER_ROW) (Bs + 1) (Be - (Bs + 1))) y c Be 0 (eb + 1)
      hb2 (by omega) (by omega) (by omega) hy0 hy3
    push_cast at hp ⊢
    ring_nf at hp ⊢
    exact hp
  rw [e3]


lemma if_fold_collapse (R ff lf : ℕ) (fv : ℕ) (z : List ℕ) :
    (if ff ≤ lf then
      (List.range (lf + 1 - ff)).foldl (fun bb k => bb.set (R + ff + k) fv) z
    else z) =
      (List.range (lf + 1 - ff)).foldl (fun bb k => bb.set (R + ff + k) fv)
        z := by
  by_cases h : ff ≤ lf
  · rw [if_pos h]
  · rw [if_neg h, show lf + 1 - ff = 0 by omega, List.range_zero,
      List.foldl_nil]

lemma fillSpan_core (buf : List ℕ) (y a b : ℤ) (c : Bool)
    (hbytes : ∀ v ∈ buf, v < 256) (hy0 : 0 ≤ y) (hy3 : y < 300)
    (ha : 0 ≤ a) (hb : b ≤ 400) (hab : a < b) :
    fillSpan buf y a b c = setPixelRange buf y a b c := by
  have hsrA : a.toNat >>> 3 = a.toNat / 8 := by
    rw [Nat.shiftRight_eq_div_pow]
  have hsrE : (b - 1).toNat >>> 3 = (b - 1).toNat / 8 := by
    rw [Nat.shiftRight_eq_div_pow]
  have hEA : a.toNat ≤ (b - 1).toNat := by omega
  have hE399 : (b - 1).toNat ≤ 399 := by omega
  have ha8 : a = 8 * ((a.toNat / 8 : ℕ) : ℤ) + ((a.toNat % 8 : ℕ) : ℤ) := by
    omega
  have hb8 : b = 8 * (((b - 1).toNat / 8 : ℕ) : ℤ) +
      (((b - 1).toNat % 8 : ℕ) : ℤ) + 1 := by
    omega
  rw [fillSpan]
  rw [if_neg (by simp only [HEIGHT]; omega)]
  dsimp only
  rw [show max a 0 = a by omega,
    show min b WIDTH = b by simp only [WIDTH]; omega,
    if_neg (by omega : ¬ a ≥ b), hsrA, hsrE]
  by_cases hBB : a.toNat / 8 = (b - 1).toNat / 8
  · rw [if_pos hBB, sameByteMask_eq_bitsMask]
    have hre : setPixelRange buf y a b c =
        setPixelRange buf y (8 * ((a.toNat / 8 : ℕ) : ℤ) +
          ((a.toNat % 8 : ℕ) : ℤ))
          (8 * ((a.toNat / 8 : ℕ) : ℤ) + (((b - 1).toNat % 8 + 1 : ℕ) : ℤ))
          c := by
      rw [← ha8]
      congr 1
      push_cast
      omega
    rw [hre, pixelRun_eq_applyMask buf y c (a.toNat / 8) (a.toNat % 8)
      ((b - 1).toNat % 8 + 1) hbytes (by omega) (by omega) (by omega)
      hy0 hy3]
  · rw [if_neg hBB]
    have hBslt : a.toNat / 8 < (b - 1).toNat / 8 := by omega
    have hrhs : setPixelRange buf y a b c =
        applyMask
          (applyMaskRange (applyMask buf
              (y.toNat * BYTES_PER_ROW + a.toNat / 8) c
              (bitsMask (a.toNat % 8) 8)) c (y.toNat * BYTES_PER_ROW)
            (a.toNat / 8 + 1) ((b - 1).toNat / 8 - (a.toNat / 8 + 1)))
          (y.toNat * BYTES_PER_ROW + (b - 1).toNat / 8) c
          (bitsMask 0 ((b - 1).toNat % 8 + 1)) := by
      have hre : setPixelRange buf y a b c =
          setPixelRange buf y (8 * ((a.toNat / 8 : ℕ) : ℤ) +
            ((a.toNat % 8 : ℕ) : ℤ))
            (8 * (((b - 1).toNat / 8 : ℕ) : ℤ) +
              (((b - 1).toNat % 8 : ℕ) : ℤ) + 1) c := by
        rw [← ha8, ← hb8]
      rw [hre]
      exact setPixelRange_decomp buf y c (a.toNat / 8) ((b - 1).toNat / 8)
        (a.toNat % 8) ((b - 1).toNat % 8) hbytes hy0 hy3 hBslt (by omega)
        (by omega) (by omega)
    rw [hrhs]
    by_cases hsb0 : a.toNat % 8 = 0 <;> by_cases heb7 : (b - 1).toNat % 8 = 7
    · -- start aligned, end aligned: pure full bytes
      simp only [if_neg (show ¬ a.toNat % 8 ≠ 0 by omega),
        if_neg (show ¬ (b - 1).toNat % 8 ≠ 7 by omega)]
      rw [if_fold_collapse,
        setFillRange_eq_applyMaskRange buf c _ _ _ hbytes,
        show (b - 1).toNat / 8 + 1 - a.toNat / 8 =
          ((b - 1).toNat / 8 - (a.toNat / 8 + 1)) + 1 + 1 by omega,
        applyMaskRange_cons, applyMaskRange_succ,
        hsb0, heb7,
        show bitsMask 0 8 = 255 by decide,
        show y.toNat * BYTES_PER_ROW + (a.toNat / 8 + 1) +
            ((b - 1).toNat / 8 - (a.toNat / 8 + 1)) =
          y.toNat * BYTES_PER_ROW + (b - 1).toNat / 8 by omega]
    · -- start aligned, end partial
      simp only [if_neg (show ¬ a.toNat % 8 ≠ 0 by omega),
        if_pos (show (b - 1).toNat % 8 ≠ 7 by omega)]
      rw [if_fold_collapse,
        endMask_eq_bitsMask _ (by omega)]
      have hbe : ∀ v ∈ applyMask buf
          (y.toNat * BYTES_PER_ROW + (b - 1).toNat / 8) c
          (bitsMask 0 ((b - 1).toNat % 8 + 1)), v < 256 :=
        applyMask_bytes_lt _ _ _ _ (bitsMask_lt_256 _ _) hbytes
      rw [setFillRange_eq_applyMaskRange _ c _ _ _ hbe,
        show (b - 1).toNat / 8 - 1 + 1 - a.toNat / 8 =
          ((b - 1).toNat / 8 - (a.toNat / 8 + 1)) + 1 by omega,
        applyMaskRange_cons,
        applyMask_comm buf (y.toNat * BYTES_PER_ROW + (b - 1).toNat / 8)
          (y.toNat * BYTES_PER_ROW + a.toNat / 8) c
          (bitsMask 0 ((b - 1).toNat % 8 + 1)) 255 (by omega),
        applyMask_comm_applyMaskRange
          (applyMask buf (y.toNat * BYTES_PER_ROW + a.toNat / 8) c 255) c
          (y.toNat * BYTES_PER_ROW) (a.toNat / 8 + 1)
          ((b - 1).toNat / 8 - (a.toNat / 8 + 1))
          (y.toNat * BYTES_PER_ROW + (b - 1).toNat / 8)
          (bitsMask 0 ((b - 1).toNat % 8 + 1)) (fun k hk => by omega),
        hsb0, show bitsMask 0 8 = 255 by decide]
    · -- start partial, end aligned
      simp only [if_pos (show a.toNat % 8 ≠ 0 by omega),
        if_neg (show ¬ (b - 1).toNat % 8 ≠ 7 by omega)]
      rw [if_fold_collapse,
        startMask_eq_bitsMask _ (by omega)]
      have hbs : ∀ v ∈ applyMask buf
          (y.toNat * BYTES_PER_ROW + a.toNat / 8) c
          (bitsMask (a.toNat % 8) 8), v < 256 :=
        applyMask_bytes_lt _ _ _ _ (bitsMask_lt_256 _ _) hbytes
      rw [setFillRange_eq_applyMaskRange _ c _ _ _ hbs,
        show (b - 1).toNat / 8 + 1 - (a.toNat / 8 + 1) =
          ((b - 1).toNat / 8 - (a.toNat / 8 + 1)) + 1 by omega,
        applyMaskRange_succ,
        heb7, show bitsMask 0 8 = 255 by decide,
        show y.toNat * BYTES_PER_ROW + (a.toNat / 8 + 1) +
            ((b - 1).toNat / 8 - (a.toNat / 8 + 1)) =
          y.toNat * BYTES_PER_ROW + (b - 1).toNat / 8 by omega]
    · -- start partial, end partial
      simp only [if_pos (show a.toNat % 8 ≠ 0 by omega),
        if_pos (show (b - 1).toNat % 8 ≠ 7 by omega)]
      rw [if_fold_collapse,
        startMask_eq_bitsMask _ (by omega),
        endMask_eq_bitsMask _ (by omega)]
      have hbs : ∀ v ∈ applyMask buf
          (y.toNat * BYTES_PER_ROW + a.toNat / 8) c
          (bitsMask (a.toNat % 8) 8), v < 256 :=
        applyMask_bytes_lt _ _ _ _ (bitsMask_lt_256 _ _) hbytes
      have hbe : ∀ v ∈ applyMask (applyMask buf
          (y.toNat * BYTES_PER_ROW + a.toNat / 8) c
          (bitsMask (a.toNat % 8) 8))
          (y.toNat * BYTES_PER_ROW + (b - 1).toNat / 8) c
          (bitsMask 0 ((b - 1).toNat % 8 + 1)), v < 256 :=
        applyMask_bytes_lt _ _ _ _ (bitsMask_lt_256 _ _) hbs
      rw [setFillRange_eq_applyMaskRange _ c _ _ _ hbe,
        show (b - 1).toNat / 8 - 1 + 1 - (a.toNat / 8 + 1) =
          (b - 1).toNat / 8 - (a.toNat / 8 + 1) by omega,
        applyMask_comm_applyMaskRange
          (applyMask buf (y.toNat * BYTES_PER_ROW + a.toNat / 8) c
            (bitsMask (a.toNat % 8) 8)) c
          (y.toNat * BYTES_PER_ROW) (a.toNat / 8 + 1)
          ((b - 1).toNat / 8 - (a.toNat / 8 + 1))
          (y.toNat * BYTES_PER_ROW + (b - 1).toNat / 8)
          (bitsMask 0 ((b - 1).toNat % 8 + 1)) (fun k hk => by omega)]


lemma setPixel_oob (buf : List ℕ) (x y : ℤ) (c : Bool)
    (h : x < 0 ∨ WIDTH ≤ x ∨ y < 0 ∨ HEIGHT ≤ y) :
    setPixel buf x y c = buf := by
  rw [setPixel, if_pos h]

lemma foldl_setPixel_id (y : ℤ) (c : Bool) (g : ℕ → ℤ) :
    ∀ (n : ℕ) (buf : List ℕ),
      (∀ k, k < n → g k < 0 ∨ WIDTH ≤ g k ∨ y < 0 ∨ HEIGHT ≤ y) →
      (List.range n).foldl (fun b (k : ℕ) => setPixel b (g k) y c) buf = buf
  | 0, buf, _ => by rw [List.range_zero, List.foldl_nil]
  | n + 1, buf, h => by
    rw [List.range_succ, List.foldl_append,
      foldl_setPixel_id y c g n buf (fun k hk => h k (by omega)),
      List.foldl_cons, List.foldl_nil, setPixel_oob _ _ _ _ (h n (by omega))]

lemma setPixelRange_oob (buf : List ℕ) (y a b : ℤ) (c : Bool)
    (h : ∀ x : ℤ, a ≤ x → x < b →
      x < 0 ∨ WIDTH ≤ x ∨ y < 0 ∨ HEIGHT ≤ y) :
    setPixelRange buf y a b c = buf := by
  unfold setPixelRange
  exact foldl_setPixel_id y c (fun (k : ℕ) => a + (k : ℤ)) _ buf
    (fun k hk => h (a + (k : ℤ)) (by omega) (by omega))

lemma setPixelRange_oob_y (buf : List ℕ) (y a b : ℤ) (c : Bool)
    (h : y < 0 ∨ HEIGHT ≤ y) : setPixelRange buf y a b c = buf :=
  setPixelRange_oob buf y a b c (fun x h1 h2 => by tauto)

lemma fillSpan_clamp (buf : List ℕ) (y xStart xEnd : ℤ) (c : Bool) :
    fillSpan buf y xStart xEnd c =
      fillSpan buf y (max xStart 0) (min xEnd WIDTH) c := by
  rw [fillSpan, fillSpan]
  by_cases hy : y < 0 ∨ HEIGHT ≤ y
  · rw [if_pos hy, if_pos hy]
  · rw [if_neg hy, if_neg hy]
    dsimp only
    rw [max_assoc, max_self, min_assoc, min_self]

lemma setPixelRange_clamp (buf : List ℕ) (y a b : ℤ) (c : Bool)
    (h : max a 0 < min b WIDTH) :
    setPixelRange buf y a b c =
      setPixelRange buf y (max a 0) (min b WIDTH) c := by
  rw [setPixelRange_split buf y a (max a 0) b c (le_max_left _ _)
      (by omega),
    setPixelRange_oob buf y a (max a 0) c (fun x h1 h2 => by omega),
    setPixelRange_split buf y (max a 0) (min b WIDTH) b c (le_of_lt h)
      (by omega),
    setPixelRange_oob _ y (min b WIDTH) b c
      (fun x h1 h2 => by simp only [WIDTH] at h1 ⊢; omega)]

/-- C1: `fill_span(y, x_start, x_end, color)` leaves the framebuffer
byte-for-byte identical to calling `set_pixel(x, y, color)` for each
`x` in `[x_start, x_end)` on the same starting state — for every row,
color, starting buffer of bytes (values `< 256`), and all integer
bounds, in-bounds or not; bytes not covered by the span are unchanged
since both sides are the same buffer. -/
theorem claim_C1 (buf : List ℕ) (y xStart xEnd : ℤ) (c : Bool)
    (hbytes : ∀ v ∈ buf, v < 256) :
    fillSpan buf y xStart xEnd c = setPixelRange buf y xStart xEnd c := by
  by_cases hy : y < 0 ∨ HEIGHT ≤ y
  · rw [fillSpan, if_pos hy, setPixelRange_oob_y buf y _ _ c hy]
  · by_cases hx : min xEnd WIDTH ≤ max xStart 0
    · rw [fillSpan, if_neg hy]
      dsimp only
      rw [if_pos (show max xStart 0 ≥ min xEnd WIDTH from hx),
        setPixelRange_oob buf y xStart xEnd c
          (fun x h1 h2 => by simp only [WIDTH] at hx ⊢; omega)]
    · push_neg at hy hx
      rw [fillSpan_clamp,
        fillSpan_core buf y (max xStart 0) (min xEnd WIDTH) c hbytes hy.1
          (by simpa [HEIGHT] using hy.2) (le_max_right _ _)
          (by simp only [WIDTH]; exact min_le_right _ _) hx]
      exact (setPixelRange_clamp buf y xStart xEnd c hx).symm

/-- Witness for C1 at a concrete buffer and span. -/
theorem claim_C1_witness :
    (∀ v ∈ ([0, 0] : List ℕ), v < 256) ∧
      fillSpan [0, 0] 0 3 10 true = setPixelRange [0, 0] 0 3 10 true :=
  ⟨by decide, claim_C1 [0, 0] 0 3 10 true (by decide)⟩

end RLCD
